import Mathlib

/-!
Shallow embedding of the gitsplits-safe-agent repository (TypeScript) in Lean 4,
with theorems checking the natural-language specification against the code.

Embedding conventions:
* JavaScript numbers are modelled as `ℚ` (the quantities handled by the code —
  percentages, balances, claim amounts — are small decimals for which float and
  exact arithmetic agree on every comparison appearing in a theorem below).
* `Math.round` is Mathlib's `round` (both are floor of x + 1/2 on these inputs).
* Strings are Lean `String`s; `String.prototype.toLowerCase` is modelled by
  mapping `Char.toLower` over the characters (identical on ASCII input).
* Database rows live in an explicit `DbState`; a fallible operation returns
  `DbState × Except String r` — the state component is the store after the
  call, so "persists nothing on error" means the state component is unchanged.
* External effects (ledger settlement, gist fetch, signature recovery, wall
  clock, generated ids and nonces) are passed in as explicit arguments.
-/

namespace GitSplits
namespace Str

/-- Model of `String.prototype.toLowerCase` (ASCII): map `Char.toLower`. -/
def jsToLower (s : String) : String :=
  ⟨s.data.map Char.toLower⟩

/-- One character of the zod address regex character class `[a-fA-F0-9]`. -/
def isHexDigitChar (c : Char) : Bool :=
  c.isDigit || ('a' ≤ c && c ≤ 'f') || ('A' ≤ c && c ≤ 'F')

/-- Lower-case hex digit `[a-f0-9]`. -/
def isLowerHexDigitChar (c : Char) : Bool :=
  c.isDigit || ('a' ≤ c && c ≤ 'f')

/-- The zod / database.ts address format rule `/^0x[a-fA-F0-9]{40}$/`. -/
def isHexAddress (s : String) : Bool :=
  match s.data with
  | c0 :: c1 :: rest =>
      c0 == '0' && c1 == 'x' && rest.length == 40 && rest.all isHexDigitChar
  | _ => false

/-- Canonical stored form: `/^0x[a-f0-9]{40}$/` (lower-case hex only). -/
def isLowerHexAddress (s : String) : Bool :=
  match s.data with
  | c0 :: c1 :: rest =>
      c0 == '0' && c1 == 'x' && rest.length == 40 && rest.all isLowerHexDigitChar
  | _ => false

/-- Split a character list at dashes (the grouping the uuid regex matches). -/
def splitDash : List Char → List (List Char)
  | [] => [[]]
  | c :: rest =>
    let r := splitDash rest
    if c == '-' then [] :: r
    else
      match r with
      | g :: gs => (c :: g) :: gs
      | [] => [[c]]

/-- Shape of zod's `z.string().uuid()` check: five dash-separated hex groups
of lengths 8, 4, 4, 4, 12. -/
def isUuid (s : String) : Bool :=
  match splitDash s.data with
  | [a, b, c, d, e] =>
      a.length == 8 && b.length == 4 && c.length == 4 && d.length == 4 &&
      e.length == 12 && a.all isHexDigitChar && b.all isHexDigitChar &&
      c.all isHexDigitChar && d.all isHexDigitChar &&
      e.all isHexDigitChar
  | _ => false

end Str

namespace DB

/-- Row of the `SafeAccount` table. -/
structure SafeRow where
  id : Nat
  address : String
  chainId : Int
  ownerAddress : String
deriving Repr, DecidableEq

/-- Row of the `SplitsContract` table. -/
structure ContractRow where
  id : Nat
  address : String
  safeId : String
  chainId : Int
  controller : String
deriving Repr, DecidableEq

/-- Row of the `Contributor` table. -/
structure ContributorRow where
  id : Nat
  splitsContractId : Nat
  githubUsername : String
  walletAddress : Option String
  percentage : ℚ
  verificationStatus : String
  verifiedAt : Option Nat
deriving Repr, DecidableEq

/-- Row of the `ContributorInvitation` table. -/
structure InvitationRow where
  id : Nat
  splitsContractId : Nat
  contributorId : Nat
  email : String
  token : String
  expiresAt : Nat
  status : String
deriving Repr, DecidableEq

/-- Row of the `Distribution` table. -/
structure DistributionRow where
  id : Nat
  splitsContractId : Nat
  amount : ℚ
  status : String
  txHash : Option String
deriving Repr, DecidableEq

/-- Row of the `Claim` table. -/
structure ClaimRow where
  id : Nat
  contributorId : Nat
  distributionId : Nat
  amount : ℚ
  status : String
  txHash : Option String
deriving Repr, DecidableEq

/-- The authoritative store (Prisma database).  `nextId` models the id
generator: every created row receives a fresh id. -/
structure DbState where
  safes : List SafeRow
  contracts : List ContractRow
  contributors : List ContributorRow
  invitations : List InvitationRow
  distributions : List DistributionRow
  claims : List ClaimRow
  nextId : Nat
deriving Repr, DecidableEq

/-- Input of `createSafeAccount`. -/
structure SafeAccountParams where
  address : String
  chainId : Int
  ownerAddress : String
deriving Repr, DecidableEq

/-- One contributor in the input of `createSplitsContract`. -/
structure ContributorParams where
  githubUsername : String
  walletAddress : Option String
  percentage : ℚ
deriving Repr, DecidableEq

/-- Input of `createSplitsContract`. -/
structure SplitsContractParams where
  address : String
  safeId : String
  chainId : Int
  controller : String
  contributors : List ContributorParams
deriving Repr, DecidableEq

/-- `SafeAccountSchema.parse`: address and owner must match the hex-address
regex, chainId must be a positive integer. -/
def validSafeAccount (p : SafeAccountParams) : Bool :=
  Str.isHexAddress p.address && decide (0 < p.chainId) && Str.isHexAddress p.ownerAddress

/-- `ContributorSchema.parse`: non-empty username, optional wallet matching the
address regex, percentage between 0 and 100. -/
def validContributor (c : ContributorParams) : Bool :=
  decide (c.githubUsername ≠ "") &&
  (match c.walletAddress with
   | some w => Str.isHexAddress w
   | none => true) &&
  decide (0 ≤ c.percentage) && decide (c.percentage ≤ 100)

/-- `SplitsContractSchema.parse`. -/
def validSplitsContract (p : SplitsContractParams) : Bool :=
  Str.isHexAddress p.address && Str.isUuid p.safeId && decide (0 < p.chainId) &&
  Str.isHexAddress p.controller && p.contributors.all validContributor

/-- `DatabaseService.createSafeAccount` (database.ts): validates, then stores
the addresses lower-cased. -/
def createSafeAccount (st : DbState) (p : SafeAccountParams) :
    DbState × Except String SafeRow :=
  if validSafeAccount p then
    let row : SafeRow :=
      { id := st.nextId, address := Str.jsToLower p.address, chainId := p.chainId,
        ownerAddress := Str.jsToLower p.ownerAddress }
    ({ st with safes := st.safes ++ [row], nextId := st.nextId + 1 }, .ok row)
  else (st, .error "Invalid Safe account data")

/-- The contributor rows written by `createSplitsContract`.  The JS condition
`c.walletAddress ? "PENDING" : "UNASSIGNED"` is truthiness on a string that
zod already checked against the regex, hence is non-empty iff present. -/
def mkContributorRow (contractId : Nat) (rowId : Nat) (c : ContributorParams) :
    ContributorRow :=
  { id := rowId, splitsContractId := contractId,
    githubUsername := c.githubUsername,
    walletAddress := c.walletAddress.map Str.jsToLower,
    percentage := c.percentage,
    verificationStatus := if c.walletAddress.isSome then "PENDING" else "UNASSIGNED",
    verifiedAt := none }

/-- The nested create list, each row with a fresh id. -/
def mkContributorRows (contractId : Nat) : Nat → List ContributorParams → List ContributorRow
  | _, [] => []
  | rowId, c :: rest =>
      mkContributorRow contractId rowId c :: mkContributorRows contractId (rowId + 1) rest

/-- `DatabaseService.createSplitsContract` (database.ts lines 123-186): zod
validation, then the share-sum check `Math.abs(total - 100) > 0.001`, then a
single nested create of the contract row plus its contributor rows. -/
def createSplitsContract (st : DbState) (p : SplitsContractParams) :
    DbState × Except String (ContractRow × List ContributorRow) :=
  if ¬ validSplitsContract p then (st, .error "Invalid splits contract data")
  else
    let total : ℚ := p.contributors.foldl (fun sum c => sum + c.percentage) 0
    if |total - 100| > 1/1000 then
      (st, .error "Total contributor percentage must equal 100%")
    else
      let row : ContractRow :=
        { id := st.nextId, address := Str.jsToLower p.address, safeId := p.safeId,
          chainId := p.chainId, controller := Str.jsToLower p.controller }
      let rows := mkContributorRows st.nextId (st.nextId + 1) p.contributors
      ({ st with contracts := st.contracts ++ [row],
                 contributors := st.contributors ++ rows,
                 nextId := st.nextId + 1 + rows.length },
       .ok (row, rows))

/-- `DatabaseService.getSplitsContract`: validates the address format, then
`findUnique` on the lower-cased address, including the contributors. -/
def getSplitsContract (st : DbState) (address : String) :
    Except String (Option (ContractRow × List ContributorRow)) :=
  if ¬ Str.isHexAddress address then .error "Invalid address format"
  else .ok ((st.contracts.find? (fun ct => ct.address == Str.jsToLower address)).map
    (fun ct => (ct, st.contributors.filter (fun c => c.splitsContractId == ct.id))))

/-- Input of `updateContributor`. -/
structure UpdateContributorParams where
  id : Nat
  walletAddress : Option String
  verificationStatus : Option String
deriving Repr, DecidableEq

/-- The JS guard `params.walletAddress && !params.walletAddress.match(...)`:
an empty string is falsy, so only a non-empty, non-matching wallet fails. -/
def walletParamInvalid (p : UpdateContributorParams) : Bool :=
  match p.walletAddress with
  | some w => decide (w ≠ "") && ¬ Str.isHexAddress w
  | none => false

/-- The Prisma `update` data of `updateContributor`: fields whose value is
`undefined` are left untouched. -/
def applyContributorUpdate (p : UpdateContributorParams) (now : Nat)
    (c : ContributorRow) : ContributorRow :=
  { c with
    walletAddress := match p.walletAddress with
      | some w => some (Str.jsToLower w)
      | none => c.walletAddress,
    verificationStatus := p.verificationStatus.getD c.verificationStatus,
    verifiedAt := if p.verificationStatus == some "VERIFIED" then some now else c.verifiedAt }

/-- `DatabaseService.updateContributor` (database.ts lines 213-247). -/
def updateContributor (st : DbState) (p : UpdateContributorParams) (now : Nat) :
    DbState × Except String ContributorRow :=
  if walletParamInvalid p then (st, .error "Invalid wallet address format")
  else
    match st.contributors.find? (fun c => c.id == p.id) with
    | none => (st, .error "Failed to update contributor")
    | some c =>
        ({ st with contributors := st.contributors.map (fun d =>
            if d.id == p.id then applyContributorUpdate p now d else d) },
         .ok (applyContributorUpdate p now c))

/-- `DatabaseService.createContributorInvitation`. -/
def createContributorInvitation (st : DbState) (splitsContractId contributorId : Nat)
    (email token : String) (expiresAt : Nat) : DbState × InvitationRow :=
  let row : InvitationRow :=
    { id := st.nextId, splitsContractId, contributorId, email, token, expiresAt,
      status := "PENDING" }
  ({ st with invitations := st.invitations ++ [row], nextId := st.nextId + 1 }, row)

/-- `DatabaseService.getContributorInvitation`: `findUnique` on the token. -/
def getContributorInvitation (st : DbState) (token : String) : Option InvitationRow :=
  st.invitations.find? (fun i => i.token == token)

/-- `DatabaseService.updateContributorInvitation`: update of the status field. -/
def updateContributorInvitation (st : DbState) (id : Nat) (status : String) : DbState :=
  { st with invitations := st.invitations.map (fun i =>
      if i.id == id then { i with status := status } else i) }

/-- `DatabaseService.createDistribution`. -/
def createDistribution (st : DbState) (splitsContractId : Nat) (amount : ℚ)
    (status : String) : DbState × DistributionRow :=
  let row : DistributionRow :=
    { id := st.nextId, splitsContractId, amount, status, txHash := none }
  ({ st with distributions := st.distributions ++ [row], nextId := st.nextId + 1 }, row)

/-- `DatabaseService.updateDistribution`: `txHash = none` models an update whose
data does not mention txHash (the stored value is kept). -/
def updateDistribution (st : DbState) (id : Nat) (status : String)
    (txHash : Option String) : DbState :=
  { st with distributions := st.distributions.map (fun d =>
      if d.id == id then
        { d with status := status, txHash := (match txHash with
            | some t => some t
            | none => d.txHash) }
      else d) }

/-- `DatabaseService.createClaim`. -/
def createClaim (st : DbState) (contributorId distributionId : Nat) (amount : ℚ)
    (status : String) : DbState × ClaimRow :=
  let row : ClaimRow :=
    { id := st.nextId, contributorId, distributionId, amount, status, txHash := none }
  ({ st with claims := st.claims ++ [row], nextId := st.nextId + 1 }, row)

/-- `DatabaseService.updateClaim`. -/
def updateClaim (st : DbState) (id : Nat) (status : String)
    (txHash : Option String) : DbState :=
  { st with claims := st.claims.map (fun c =>
      if c.id == id then
        { c with status := status, txHash := (match txHash with
            | some t => some t
            | none => c.txHash) }
      else c) }

/-- Contributors belonging to a contract (the Prisma `include`). -/
def contributorsOf (st : DbState) (contractId : Nat) : List ContributorRow :=
  st.contributors.filter (fun c => c.splitsContractId == contractId)

/-- Claims belonging to a distribution (the Prisma `include`). -/
def claimsOf (st : DbState) (distributionId : Nat) : List ClaimRow :=
  st.claims.filter (fun c => c.distributionId == distributionId)

/-- `DatabaseService.getPendingDistributions`: all PENDING distributions with
their contract (and its contributors) and their claims joined in. -/
def getPendingDistributions (st : DbState) :
    List (DistributionRow × Option (ContractRow × List ContributorRow) × List ClaimRow) :=
  (st.distributions.filter (fun d => d.status == "PENDING")).map (fun d =>
    (d, (st.contracts.find? (fun ct => ct.id == d.splitsContractId)).map
          (fun ct => (ct, contributorsOf st ct.id)),
        claimsOf st d.id))

/-- `DatabaseService.getContributorClaims`. -/
def getContributorClaims (st : DbState) (contributorId : Nat) : List ClaimRow :=
  st.claims.filter (fun c => c.contributorId == contributorId)

end DB

namespace Lifecycle
open DB

/-- `SplitsLifecycleService.acceptInvitation` (splits-lifecycle.ts lines
106-134): token lookup, status check, expiry check (marking EXPIRED), then
the contributor update and the ACCEPTED mark. -/
def acceptInvitation (st : DbState) (token walletAddress : String) (now : Nat) :
    DbState × Except String InvitationRow :=
  match getContributorInvitation st token with
  | none => (st, .error "Invalid invitation token")
  | some inv =>
    if inv.status ≠ "PENDING" then (st, .error "Invitation is no longer valid")
    else if inv.expiresAt < now then
      (updateContributorInvitation st inv.id "EXPIRED", .error "Invitation has expired")
    else
      match updateContributor st
          { id := inv.contributorId, walletAddress := some walletAddress,
            verificationStatus := some "PENDING" } now with
      | (st1, .error e) => (st1, .error e)
      | (st1, .ok _) =>
          (updateContributorInvitation st1 inv.id "ACCEPTED", .ok inv)

/-- `SplitsLifecycleService.checkForNewFunds` (splits-lifecycle.ts lines
137-171).  The contract row and the queried ledger balance are passed in (the
lookup and the RPC call are external).  If the balance is positive a PENDING
distribution is created and, for every VERIFIED contributor of the contract, a
PENDING claim of `balance * percentage / 100`.  The code performs no check for
an already existing PENDING distribution and no check that a VERIFIED
contributor has a wallet address. -/
def checkForNewFunds (st : DbState) (contract : ContractRow) (balance : ℚ) :
    DbState × Option DistributionRow :=
  if 0 < balance then
    let created := createDistribution st contract.id balance "PENDING"
    let st2 := (contributorsOf st contract.id).foldl (fun s c =>
      if c.verificationStatus == "VERIFIED" then
        (createClaim s c.id created.2.id (balance * c.percentage / 100) "PENDING").1
      else s) created.1
    (st2, some created.2)
  else (st, none)

/-- Recipient entry passed to the splits client. -/
structure Recipient where
  address : String
  percentAllocation : ℚ
deriving Repr, DecidableEq

/-- JS string truthiness: non-empty. -/
def walletTruthy : Option String → Bool
  | some w => decide (w ≠ "")
  | none => false

/-- The recipient list built in `processPendingDistributions`:
`contributors.filter(c => c.verificationStatus === "VERIFIED" && c.walletAddress)`. -/
def buildRecipients (cs : List ContributorRow) : List Recipient :=
  (cs.filter (fun c => c.verificationStatus == "VERIFIED" && walletTruthy c.walletAddress)).map
    (fun c => { address := c.walletAddress.getD "", percentAllocation := c.percentage })

/-- The body of the per-distribution try/catch in
`processPendingDistributions`.  `settle` stands for the external calls
(`splitsClient.callData.createSplit` + `createAndExecuteSafeTransaction`):
`.ok tx` is a successful settlement with transaction hash `tx`, `.error`
is any thrown exception.  A missing contract join would make the JS body throw
as well, which the catch also turns into a FAILED distribution. -/
def processOne (settle : List Recipient → ℚ → Except String String) (s : DbState)
    (d : DistributionRow) (joined : Option (ContractRow × List ContributorRow))
    (dClaims : List ClaimRow) : DbState :=
  match joined with
  | none => updateDistribution s d.id "FAILED" none
  | some ct =>
    match settle (buildRecipients ct.2) d.amount with
    | .error _ => updateDistribution s d.id "FAILED" none
    | .ok tx =>
      let s1 := updateDistribution s d.id "COMPLETED" (some tx)
      dClaims.foldl (fun s2 c => updateClaim s2 c.id "COMPLETED" (some tx)) s1

/-- `SplitsLifecycleService.processPendingDistributions` (splits-lifecycle.ts
lines 174-222): fetch the joined snapshot once, then the continue-on-error
loop over it. -/
def processPendingDistributions (settle : List Recipient → ℚ → Except String String)
    (st : DbState) : DbState :=
  (getPendingDistributions st).foldl
    (fun s item => processOne settle s item.1 item.2.1 item.2.2) st

/-- `SplitsLifecycleService.getClaimableAmount`: sum of COMPLETED claims. -/
def getClaimableAmount (st : DbState) (contributorId : Nat) : ℚ :=
  (getContributorClaims st contributorId).foldl
    (fun total c => if c.status == "COMPLETED" then total + c.amount else total) 0

end Lifecycle

namespace Identity

/-- A verification session as stored in the in-memory `verificationSessions`
map of identity.ts.  The interface declares `wallet` optional; the session
literal built by `verifyIdentity` does not set it. -/
structure VSession where
  id : String
  socialId : String
  nonce : String
  expiresAt : Nat
  verified : Bool
  wallet : Option String
deriving Repr, DecidableEq

/-- The `Map<string, VerificationSession>` of identity.ts, as an association
list in insertion order. -/
abbrev SessionStore := List (String × VSession)

/-- `Map.prototype.get`. -/
def storeGet (m : SessionStore) (k : String) : Option VSession :=
  (m.find? (fun p => p.1 == k)).map (fun p => p.2)

/-- `Map.prototype.set`: replace the entry when the key is present, append
otherwise. -/
def storeSet (m : SessionStore) (k : String) (v : VSession) : SessionStore :=
  if (m.find? (fun p => p.1 == k)).isSome then
    m.map (fun p => if p.1 == k then (k, v) else p)
  else m ++ [(k, v)]

/-- A JS template literal renders the value `undefined` as the text
"undefined"; a present wallet string renders as itself. -/
def renderWallet : Option String → String
  | some w => w
  | none => "undefined"

/-- The challenge message template of identity.ts (built identically in
`verifyIdentity` from the input and in `completeVerification` from the stored
session).  `isoString` stands for `new Date(ms).toISOString()`. -/
def verificationMessage (isoString : Nat → String) (wallet : Option String)
    (socialId nonce : String) (expiresAt : Nat) : String :=
  "GitSplits Wallet Verification\nWallet Address: " ++ renderWallet wallet ++
  "\nGitHub Username: " ++ socialId ++ "\nNonce: " ++ nonce ++
  "\nExpires: " ++ isoString expiresAt

/-- Result payload of `verifyIdentity`. -/
structure StartResult where
  sessionId : String
  message : String
  expiresAt : Nat
deriving Repr, DecidableEq

/-- `verifyIdentity` (identity.ts lines 100-150).  The generated session id,
nonce and the clock are passed in.  The session literal at lines 115-122 sets
id, socialType, socialId, nonce, expiresAt and verified — not `wallet` — so
the persisted session has `wallet = none` even though the challenge message
(and the published gist) embed the input wallet. -/
def verifyIdentity (isoString : Nat → String) (store : SessionStore)
    (socialId wallet sessionId nonce : String) (now : Nat) :
    SessionStore × StartResult :=
  let expiresAt := now + 3600000
  let msg := verificationMessage isoString (some wallet) socialId nonce expiresAt
  let session : VSession :=
    { id := sessionId, socialId := socialId, nonce := nonce, expiresAt := expiresAt,
      verified := false, wallet := none }
  (storeSet store sessionId session,
   { sessionId := sessionId, message := msg, expiresAt := expiresAt })

/-- Result of `completeVerification`: the success payload or the thrown
error message. -/
inductive CompleteResult where
  | ok (socialId : String) (wallet : Option String)
  | err (msg : String)
deriving Repr, DecidableEq

/-- Whether a `CompleteResult` is the success case. -/
def CompleteResult.isOk : CompleteResult → Bool
  | .ok _ _ => true
  | .err _ => false

/-- `completeVerification` (identity.ts lines 152-208).  `fetchGist` stands
for `verifyGistContent`'s lookup of the published verification gist of a
user, `recover` for `ethers.verifyMessage` (`none` models a throw on a
malformed signature).  The comparison at line 187 is
`recovered.toLowerCase() !== session.wallet?.toLowerCase()`; when
`session.wallet` is absent the right side is `undefined` and the mismatch
branch is always taken.  The only store mutation is on full success. -/
def completeVerification (isoString : Nat → String)
    (fetchGist : String → Option String) (recover : String → String → Option String)
    (store : SessionStore) (sessionId signature : String) (now : Nat) :
    SessionStore × CompleteResult :=
  match storeGet store sessionId with
  | none => (store, .err "Verification session not found")
  | some session =>
    if session.expiresAt < now then (store, .err "Verification session expired")
    else
      let msg := verificationMessage isoString session.wallet session.socialId
        session.nonce session.expiresAt
      let gistValid := match fetchGist session.socialId with
        | some content => content == msg
        | none => false
      if !gistValid then
        (store, .err "Verification gist not found or content mismatch")
      else
        match recover msg signature with
        | none => (store, .err "Invalid signature")
        | some recovered =>
          match session.wallet with
          | none => (store, .err "Invalid signature")
          | some w =>
            if Str.jsToLower recovered ≠ Str.jsToLower w then
              (store, .err "Invalid signature")
            else
              (storeSet store sessionId { session with verified := true },
               .ok session.socialId session.wallet)

end Identity

namespace GitHub

/-- One commit as consumed by `analyzeRepository` (unnamed github tool file):
`commit.author?.login`, `commit.commit.author.name`, `commit.commit.author.email`,
`commit.commit.author.date`. -/
structure CommitRec where
  authorLogin : Option String
  authorName : Option String
  authorEmail : Option String
  authorDate : Option String
deriving Repr, DecidableEq

/-- One entry of the `contributors` accumulator object.  JS object string
keys enumerate in insertion order, so the object is an association list. -/
structure ContributorStat where
  key : String
  login : Option String
  name : String
  email : String
  commits : Nat
  upstreamCommits : Nat
  forkCommits : Nat
  lastActive : String
  isUpstreamContributor : Bool
  isForkContributor : Bool
deriving Repr, DecidableEq

/-- The zero-count entry created when a key is first seen. -/
def freshStat (key : String) (c : CommitRec) (nm dt : String)
    (isUpstream : Bool) : ContributorStat :=
  { key := key, login := c.authorLogin, name := nm, email := c.authorEmail.getD "",
    commits := 0, upstreamCommits := 0, forkCommits := 0, lastActive := dt,
    isUpstreamContributor := isUpstream, isForkContributor := !isUpstream }

/-- The per-commit increments; `dateAfter a b` stands for
`new Date(a) > new Date(b)`. -/
def bumpStat (dateAfter : String → String → Bool) (isUpstream : Bool) (dt : String)
    (s : ContributorStat) : ContributorStat :=
  { s with
    commits := s.commits + 1,
    upstreamCommits := s.upstreamCommits + (if isUpstream then 1 else 0),
    forkCommits := s.forkCommits + (if isUpstream then 0 else 1),
    lastActive := if dateAfter dt s.lastActive then dt else s.lastActive }

/-- One iteration of the commit loops: skip a commit missing name or date,
attribute by login when present, else by display name. -/
def processCommit (dateAfter : String → String → Bool) (isUpstream : Bool)
    (acc : List ContributorStat) (c : CommitRec) : List ContributorStat :=
  match c.authorName, c.authorDate with
  | some nm, some dt =>
    let key := c.authorLogin.getD nm
    let acc1 := if acc.any (fun s => s.key == key) then acc
                else acc ++ [freshStat key c nm dt isUpstream]
    acc1.map (fun s => if s.key == key then bumpStat dateAfter isUpstream dt s else s)
  | _, _ => acc

/-- The two commit loops of `analyzeRepository`: upstream commits first (when
the repository is a fork), then the fork commits, into one accumulator. -/
def collectContributors (dateAfter : String → String → Bool)
    (upstreamCommits forkCommits : List CommitRec) : List ContributorStat :=
  forkCommits.foldl (processCommit dateAfter false)
    (upstreamCommits.foldl (processCommit dateAfter true) [])

/-- `Object.values(contributors).reduce((sum, c) => sum + c.commits, 0)`. -/
def totalCommits (acc : List ContributorStat) : Nat :=
  acc.foldl (fun sum c => sum + c.commits) 0

/-- One entry of the final `contributorsList`. -/
structure ContributorOut where
  stat : ContributorStat
  percentage : ℤ
deriving Repr, DecidableEq

/-- The JS comparator `(a, b) => b.commits - a.commits` as the sort order
"a may precede b": descending commit count. -/
def commitsDescLe (a b : ContributorStat) : Bool :=
  decide (b.commits ≤ a.commits)

/-- Stable insertion of `a` in front of the first element it may precede. -/
def sortInsert (le : α → α → Bool) (a : α) : List α → List α
  | [] => [a]
  | b :: l => if le a b then a :: b :: l else b :: sortInsert le a l

/-- Model of `Array.prototype.sort` with a comparator: a stable sort.  (The
ECMAScript specification requires sort stability; any stable sort is
extensionally the same function of the comparator.) -/
def stableSort (le : α → α → Bool) : List α → List α
  | [] => []
  | a :: l => sortInsert le a (stableSort le l)

/-- The final percentage computation of `analyzeRepository`:
`.sort((a, b) => b.commits - a.commits)` followed by
`percentage: Math.round((c.commits / totalCommits) * 100)` (`Math.round x` is
`⌊x + 1/2⌋`, Mathlib's `round`). -/
def contributorsList (acc : List ContributorStat) : List ContributorOut :=
  (stableSort commitsDescLe acc).map (fun c =>
    { stat := c, percentage := round ((c.commits : ℚ) / (totalCommits acc : ℚ) * 100) })

/-- The attribution pipeline of `analyzeRepository` (lines 234-407 of the
github tool file): accumulate both commit lists, then sort and attach
integer percentages. -/
def analyzeContributors (dateAfter : String → String → Bool)
    (upstreamCommits forkCommits : List CommitRec) : List ContributorOut :=
  contributorsList (collectContributors dateAfter upstreamCommits forkCommits)

end GitHub

namespace DB

/-- Distribution row lookup by id (`findUnique`-style accessor used to state
theorems). -/
def findDist (st : DbState) (i : Nat) : Option DistributionRow :=
  st.distributions.find? (fun d => d.id == i)

/-- Claim row lookup by id. -/
def findClaim (st : DbState) (i : Nat) : Option ClaimRow :=
  st.claims.find? (fun c => c.id == i)

/-- Contributor row lookup by id. -/
def findContributor (st : DbState) (i : Nat) : Option ContributorRow :=
  st.contributors.find? (fun c => c.id == i)

/-- All addresses stored in the database are in the canonical lower-case hex
form (the stated write-time invariant of the store layer). -/
def WellFormedAddresses (st : DbState) : Prop :=
  (∀ s ∈ st.safes, Str.isLowerHexAddress s.address = true ∧
      Str.isLowerHexAddress s.ownerAddress = true) ∧
  (∀ ct ∈ st.contracts, Str.isLowerHexAddress ct.address = true ∧
      Str.isLowerHexAddress ct.controller = true) ∧
  (∀ c ∈ st.contributors, ∀ w, c.walletAddress = some w →
      Str.isLowerHexAddress w = true)

end DB

namespace Lifecycle

/-- The settlement outcome `processPendingDistributions` observes for one
joined pending distribution: the external calls on the joined contract's
contributors, or the throw caused by a missing join. -/
def settleOutcome (settle : List Recipient → ℚ → Except String String)
    (joined : Option (DB.ContractRow × List DB.ContributorRow))
    (d : DB.DistributionRow) : Except String String :=
  match joined with
  | none => .error "missing splits contract join"
  | some ct => settle (buildRecipients ct.2) d.amount

end Lifecycle

namespace Fixtures
open DB Lifecycle Identity GitHub

/-- A valid lower-case hex address. -/
def hexA : String := ⟨'0' :: 'x' :: List.replicate 40 'a'⟩

/-- A second valid lower-case hex address. -/
def hexB : String := ⟨'0' :: 'x' :: List.replicate 40 'b'⟩

/-- A third valid lower-case hex address. -/
def hexC : String := ⟨'0' :: 'x' :: List.replicate 40 'c'⟩

/-- The same address as `hexC` in upper-case hex digits. -/
def hexCupper : String := ⟨'0' :: 'x' :: List.replicate 40 'C'⟩

/-- A well-formed uuid. -/
def uuid1 : String := "123e4567-e89b-12d3-a456-426614174000"

/-- The empty store. -/
def stEmpty : DbState :=
  { safes := [], contracts := [], contributors := [], invitations := [],
    distributions := [], claims := [], nextId := 0 }

/-- A splits contract row. -/
def ct1 : ContractRow :=
  { id := 1, address := hexA, safeId := uuid1, chainId := 11155111, controller := hexB }

/-- A second splits contract row. -/
def ct2 : ContractRow :=
  { id := 6, address := hexB, safeId := uuid1, chainId := 11155111, controller := hexB }

/-- A VERIFIED contributor of `ct1` holding 100 percent, with a wallet. -/
def verifiedAlice : ContributorRow :=
  { id := 2, splitsContractId := 1, githubUsername := "alice",
    walletAddress := some hexC, percentage := 100,
    verificationStatus := "VERIFIED", verifiedAt := none }

/-- A VERIFIED contributor of `ct1` without any wallet address. -/
def noWalletBob : ContributorRow :=
  { id := 3, splitsContractId := 1, githubUsername := "bob",
    walletAddress := none, percentage := 100,
    verificationStatus := "VERIFIED", verifiedAt := none }

/-- A VERIFIED 60-percent contributor with a wallet. -/
def aliceSixty : ContributorRow :=
  { id := 4, splitsContractId := 1, githubUsername := "alice",
    walletAddress := some hexC, percentage := 60,
    verificationStatus := "VERIFIED", verifiedAt := none }

/-- A not-yet-verified 40-percent contributor. -/
def bobForty : ContributorRow :=
  { id := 5, splitsContractId := 1, githubUsername := "bob",
    walletAddress := none, percentage := 40,
    verificationStatus := "PENDING", verifiedAt := none }

/-- Store for the double-invocation run of `checkForNewFunds`. -/
def stC1 : DbState :=
  { stEmpty with contracts := [ct1], contributors := [verifiedAlice], nextId := 10 }

/-- Store with a VERIFIED contributor that has no wallet bound. -/
def stC3 : DbState :=
  { stEmpty with contracts := [ct1], contributors := [noWalletBob], nextId := 20 }

/-- Store with the spec's A(60)/B(40) example, only A VERIFIED. -/
def stC3w : DbState :=
  { stEmpty with contracts := [ct1], contributors := [aliceSixty, bobForty], nextId := 30 }

/-- A pending distribution of `ct1`. -/
def distD1 : DistributionRow :=
  { id := 7, splitsContractId := 1, amount := 100, status := "PENDING", txHash := none }

/-- A pending distribution of `ct2`. -/
def distD2 : DistributionRow :=
  { id := 8, splitsContractId := 6, amount := 200, status := "PENDING", txHash := none }

/-- A pending claim of `distD1`. -/
def claimD1 : ClaimRow :=
  { id := 9, contributorId := 2, distributionId := 7, amount := 100,
    status := "PENDING", txHash := none }

/-- A pending claim of `distD2`. -/
def claimD2 : ClaimRow :=
  { id := 10, contributorId := 2, distributionId := 8, amount := 200,
    status := "PENDING", txHash := none }

/-- Store with two pending distributions over two contracts. -/
def stC2 : DbState :=
  { stEmpty with
    contracts := [ct1, ct2], contributors := [verifiedAlice],
    distributions := [distD1, distD2], claims := [claimD1, claimD2], nextId := 40 }

/-- A settlement oracle that throws for the 100-unit distribution and
settles the 200-unit one. -/
def settleC2 : List Recipient → ℚ → Except String String :=
  fun _ amt => if amt == 100 then .error "rpc failure" else .ok "0xsettled"

/-- A wallet string for the verification-session fixtures. -/
def walletW : String := "0xAB"

/-- A stored verification session that carries a wallet (as the database
variant of the flow stores it). -/
def sessionC4 : VSession :=
  { id := "s1", socialId := "alice", nonce := "n1", expiresAt := 100,
    verified := false, wallet := some walletW }

/-- The challenge message re-derived from `sessionC4`. -/
def msgC4 : String :=
  Identity.verificationMessage toString (some walletW) "alice" "n1" 100

/-- Session store holding `sessionC4`. -/
def storeC4 : SessionStore := [("s1", sessionC4)]

/-- Gist oracle: alice has published exactly the re-derived challenge. -/
def fetchC4 : String → Option String :=
  fun u => if u == "alice" then some msgC4 else none

/-- Recovery oracle: the signature "sig1" over the challenge recovers the
session wallet. -/
def recoverC4 : String → String → Option String :=
  fun m sig => if m == msgC4 && sig == "sig1" then some walletW else none

/-- A commit attributed to `login`. -/
def mkCommit (login : String) : CommitRec :=
  { authorLogin := some login, authorName := some login, authorEmail := none,
    authorDate := some "2024-01-01" }

/-- A date order oracle (all dates equal, never after). -/
def noDateOrder : String → String → Bool := fun _ _ => false

/-- Three commits by three distinct authors. -/
def commitsC5 : List CommitRec := [mkCommit "a", mkCommit "b", mkCommit "c"]

/-- Five commits: three by a, two by b. -/
def commitsC5w : List CommitRec :=
  [mkCommit "a", mkCommit "a", mkCommit "a", mkCommit "b", mkCommit "b"]

/-- Two single-commit authors, first-seen key "b" then "a". -/
def commitsC9 : List CommitRec := [mkCommit "b", mkCommit "a"]

/-- Splits-contract input whose shares sum to exactly 100.001. -/
def paramsBoundary : SplitsContractParams :=
  { address := hexA, safeId := uuid1, chainId := 1, controller := hexB,
    contributors :=
      [ { githubUsername := "alice", walletAddress := none, percentage := 50 },
        { githubUsername := "bob", walletAddress := none, percentage := 50001/1000 } ] }

/-- Splits-contract input whose shares sum to 100.002. -/
def paramsOver : SplitsContractParams :=
  { address := hexA, safeId := uuid1, chainId := 1, controller := hexB,
    contributors :=
      [ { githubUsername := "alice", walletAddress := none, percentage := 50 },
        { githubUsername := "bob", walletAddress := none, percentage := 50002/1000 } ] }

/-- A pending invitation for contributor 12. -/
def invRow : InvitationRow :=
  { id := 11, splitsContractId := 1, contributorId := 12, email := "carol@example.com",
    token := "tok1", expiresAt := 1000, status := "PENDING" }

/-- The invited contributor. -/
def contribCarol : ContributorRow :=
  { id := 12, splitsContractId := 1, githubUsername := "carol",
    walletAddress := none, percentage := 100,
    verificationStatus := "UNASSIGNED", verifiedAt := none }

/-- Store with one pending invitation. -/
def stC8 : DbState :=
  { stEmpty with
    contracts := [ct1], contributors := [contribCarol],
    invitations := [invRow], nextId := 50 }

/-- Store for the empty-wallet update. -/
def stC10 : DbState :=
  { stEmpty with contributors := [contribCarol], nextId := 60 }

end Fixtures
end GitSplits

/-!
Theorems.  First the string-layer lemmas, then generic list lemmas shared by
several claim proofs, then the claims C1-C10.
-/

namespace GitSplits
namespace Str

theorem toNat_ofNat_of_valid (n : Nat) (h : n.isValidChar) :
    (Char.ofNat n).toNat = n := by
  simp [Char.ofNat, h, Char.ofNatAux, Char.toNat, UInt32.toNat, BitVec.toNat_ofNatLt]

theorem char_le_iff_toNat_le (a b : Char) : a ≤ b ↔ a.toNat ≤ b.toNat := by
  rw [Char.le_def]; exact ge_iff_le

theorem isDigit_toNat (c : Char) (h : c.isDigit = true) :
    48 ≤ c.toNat ∧ c.toNat ≤ 57 := by
  unfold Char.isDigit at h
  rw [Bool.and_eq_true] at h
  have n1 : (48 : UInt32).toNat ≤ c.val.toNat := of_decide_eq_true h.1
  have n2 : c.val.toNat ≤ (57 : UInt32).toNat := of_decide_eq_true h.2
  have e1 : (48 : UInt32).toNat = 48 := by decide
  have e2 : (57 : UInt32).toNat = 57 := by decide
  unfold Char.toNat
  omega

theorem lowerHex_of_toNat_bounds (c : Char) (h1 : 97 ≤ c.toNat) (h2 : c.toNat ≤ 102) :
    isLowerHexDigitChar c = true := by
  have ea : ('a' : Char).toNat = 97 := by decide
  have ef : ('f' : Char).toNat = 102 := by decide
  unfold isLowerHexDigitChar
  rw [Bool.or_eq_true, Bool.and_eq_true]
  right
  constructor
  · exact decide_eq_true ((char_le_iff_toNat_le 'a' c).mpr (by omega))
  · exact decide_eq_true ((char_le_iff_toNat_le c 'f').mpr (by omega))

theorem toLower_hexDigit (c : Char) (h : isHexDigitChar c = true) :
    isLowerHexDigitChar c.toLower = true := by
  have ea : ('a' : Char).toNat = 97 := by decide
  have ef : ('f' : Char).toNat = 102 := by decide
  have eA : ('A' : Char).toNat = 65 := by decide
  have eF : ('F' : Char).toNat = 70 := by decide
  unfold isHexDigitChar at h
  rw [Bool.or_eq_true, Bool.or_eq_true, Bool.and_eq_true, Bool.and_eq_true] at h
  rcases h with (hd | ⟨hl1, hl2⟩) | ⟨hu1, hu2⟩
  · -- digit: toLower is the identity (codepoint below 65)
    have hb := isDigit_toNat c hd
    have hid : Char.toLower c = c := by
      unfold Char.toLower
      rw [if_neg (by omega)]
    rw [hid]
    unfold isLowerHexDigitChar
    rw [Bool.or_eq_true]
    left; exact hd
  · -- already lower-case a..f: identity (codepoint above 90)
    have h1 : ('a' : Char).toNat ≤ c.toNat := of_decide_eq_true hl1
    have h2 : c.toNat ≤ ('f' : Char).toNat := of_decide_eq_true hl2
    have hid : Char.toLower c = c := by
      unfold Char.toLower
      rw [if_neg (by omega)]
    rw [hid]
    exact lowerHex_of_toNat_bounds c (by omega) (by omega)
  · -- upper-case A..F: shifted by 32 into a..f
    have h1 : ('A' : Char).toNat ≤ c.toNat := of_decide_eq_true hu1
    have h2 : c.toNat ≤ ('F' : Char).toNat := of_decide_eq_true hu2
    have hv : (c.toNat + 32).isValidChar := by
      unfold Nat.isValidChar
      left; omega
    have hkey : (Char.toLower c).toNat = c.toNat + 32 := by
      unfold Char.toLower
      rw [if_pos (by omega)]
      exact toNat_ofNat_of_valid _ hv
    exact lowerHex_of_toNat_bounds _ (by omega) (by omega)

/-- Lower-casing a string that satisfies the address regex yields the
canonical lower-case form. -/
theorem toLower_hexAddress (s : String) (h : isHexAddress s = true) :
    isLowerHexAddress (jsToLower s) = true := by
  unfold isHexAddress at h
  unfold isLowerHexAddress jsToLower
  match hs : s.data with
  | [] => rw [hs] at h; simp at h
  | [c] => rw [hs] at h; simp at h
  | c0 :: c1 :: rest =>
    rw [hs] at h
    simp only [Bool.and_eq_true, beq_iff_eq, List.all_eq_true] at h
    obtain ⟨⟨⟨rfl, rfl⟩, hlen⟩, hall⟩ := h
    simp only [List.map_cons]
    have hz : Char.toLower '0' = '0' := by decide
    have hx : Char.toLower 'x' = 'x' := by decide
    rw [hz, hx]
    simp only [Bool.and_eq_true, beq_iff_eq, List.all_eq_true, beq_self_eq_true,
      true_and, List.length_map]
    refine ⟨by simpa using hlen, ?_⟩
    intro c hc
    simp only [List.mem_map] at hc
    obtain ⟨d, hd, rfl⟩ := hc
    exact toLower_hexDigit d (hall d hd)

end Str
end GitSplits

namespace GitSplits

/-- `find?` over a map whose function preserves the predicate and acts as `f`
on matching elements. -/
theorem find?_map_hit {α : Type} (q : α → Bool) (g f : α → α) (l : List α)
    (h1 : ∀ a, q (g a) = q a) (h2 : ∀ a, q a = true → g a = f a) :
    (l.map g).find? q = (l.find? q).map f := by
  induction l with
  | nil => rfl
  | cons a t ih =>
    cases hq : q a with
    | true =>
      rw [List.map_cons, List.find?_cons_of_pos _ (by rw [h1]; exact hq),
        List.find?_cons_of_pos _ hq, Option.map_some', h2 a hq]
    | false =>
      rw [List.map_cons, List.find?_cons_of_neg _ (by rw [h1]; simp [hq]),
        List.find?_cons_of_neg _ (by simp [hq]), ih]

/-- `find?` over a map whose function preserves the predicate and fixes
matching elements. -/
theorem find?_map_congr {α : Type} (q : α → Bool) (g : α → α) (l : List α)
    (h1 : ∀ a, q (g a) = q a) (h2 : ∀ a, q a = true → g a = a) :
    (l.map g).find? q = l.find? q := by
  rw [find?_map_hit q g id l h1 h2, Option.map_id]
  rfl

/-- In a list whose keys are distinct, `find?` by the key of a member returns
that member. -/
theorem find?_eq_of_mem_nodup {α : Type} (key : α → Nat) (l : List α)
    (hn : (l.map key).Nodup) (a : α) (ha : a ∈ l) :
    l.find? (fun b => key b == key a) = some a := by
  induction l with
  | nil => cases ha
  | cons b t ih =>
    rw [List.map_cons, List.nodup_cons] at hn
    rcases List.mem_cons.mp ha with rfl | hat
    · exact List.find?_cons_of_pos _ (by simp)
    · have hne : key b ≠ key a := by
        intro he
        exact hn.1 (he ▸ List.mem_map_of_mem key hat)
      rw [List.find?_cons_of_neg _ (by simpa using hne)]
      exact ih hn.2 hat

/-- C1: `checkForNewFunds` performs no check for an already existing PENDING
Distribution: invoked twice over the same unresolved inflow (balance 500
observed both times), it creates a second PENDING Distribution for the same
Split, so after two invocations the store holds two PENDING Distributions —
the claim (and the spec's idempotent-detection requirement) says there must
be exactly one. -/
theorem C1_checkForNewFunds_pays_same_inflow_twice :
    (((Lifecycle.checkForNewFunds
        (Lifecycle.checkForNewFunds Fixtures.stC1 Fixtures.ct1 500).1
        Fixtures.ct1 500).1).distributions.filter
      (fun d => d.splitsContractId == 1 && d.status == "PENDING")).length = 2 := by
  norm_num [Lifecycle.checkForNewFunds, DB.createDistribution, DB.createClaim,
    DB.contributorsOf, Fixtures.stC1, Fixtures.stEmpty, Fixtures.ct1,
    Fixtures.verifiedAlice, List.filter]

end GitSplits

namespace GitSplits

/-- C3 counterexample: a VERIFIED contributor with no bound wallet address
still receives a PENDING Claim from `checkForNewFunds` — the claim's
"and who has a bound settlement address" condition is not in the code. -/
theorem C3_counterexample_claim_without_wallet :
    ((Lifecycle.checkForNewFunds Fixtures.stC3 Fixtures.ct1 1000).1).claims.map
        (fun c => (c.contributorId, c.amount, c.status)) = [(3, 1000, "PENDING")] ∧
    Fixtures.noWalletBob.walletAddress = none ∧
    Fixtures.noWalletBob.verificationStatus = "VERIFIED" := by
  refine ⟨?_, rfl, rfl⟩
  norm_num [Lifecycle.checkForNewFunds, DB.createDistribution, DB.createClaim,
    DB.contributorsOf, Fixtures.stC3, Fixtures.stEmpty, Fixtures.ct1,
    Fixtures.noWalletBob, List.filter]

/-- The claim-creation loop of `checkForNewFunds`, characterised: it appends
one claim per VERIFIED member, in order, with the computed amount. -/
theorem checkClaims_fold (balance : ℚ) (dId : Nat)
    (members : List DB.ContributorRow) (s : DB.DbState) :
    ((members.foldl (fun s c =>
        if c.verificationStatus == "VERIFIED" then
          (DB.createClaim s c.id dId (balance * c.percentage / 100) "PENDING").1
        else s) s).claims.map
          (fun c => (c.contributorId, c.distributionId, c.amount, c.status)))
      = s.claims.map (fun c => (c.contributorId, c.distributionId, c.amount, c.status))
        ++ (members.filter (fun c => c.verificationStatus == "VERIFIED")).map
            (fun c => (c.id, dId, balance * c.percentage / 100, "PENDING")) := by
  induction members generalizing s with
  | nil => simp
  | cons m t ih =>
    cases hv : (m.verificationStatus == "VERIFIED") with
    | true =>
      rw [List.foldl_cons, if_pos hv, ih]
      simp [List.filter_cons, hv, DB.createClaim, List.append_assoc]
    | false =>
      rw [List.foldl_cons, if_neg (by simp [hv]), ih]
      simp [List.filter_cons, hv]

/-- C3 (amended): when the balance is positive, `checkForNewFunds` creates
exactly one PENDING Claim per contributor of the Split whose verification
status is VERIFIED — regardless of whether a settlement address is bound —
with amount `balance * percentage / 100`; non-VERIFIED contributors get no
Claim. -/
theorem C3_checkForNewFunds_claims_per_verified
    (st : DB.DbState) (ct : DB.ContractRow) (balance : ℚ) (h : 0 < balance) :
    ((Lifecycle.checkForNewFunds st ct balance).1).claims.map
        (fun c => (c.contributorId, c.distributionId, c.amount, c.status))
      = st.claims.map (fun c => (c.contributorId, c.distributionId, c.amount, c.status))
        ++ ((DB.contributorsOf st ct.id).filter
              (fun c => c.verificationStatus == "VERIFIED")).map
            (fun c => (c.id, st.nextId, balance * c.percentage / 100, "PENDING")) := by
  unfold Lifecycle.checkForNewFunds
  rw [if_pos h]
  exact checkClaims_fold balance st.nextId (DB.contributorsOf st ct.id)
    (DB.createDistribution st ct.id balance "PENDING").1

/-- C3 witness: the spec's example — A at 60 percent VERIFIED, B at 40 percent
not verified, balance 1000 — yields the single claim A ↦ 600. -/
theorem C3_witness :
    (0:ℚ) < 1000 ∧
    ((Lifecycle.checkForNewFunds Fixtures.stC3w Fixtures.ct1 1000).1).claims.map
        (fun c => (c.contributorId, c.distributionId, c.amount, c.status))
      = [(4, 30, (600:ℚ), "PENDING")] := by
  refine ⟨by norm_num, ?_⟩
  rw [C3_checkForNewFunds_claims_per_verified Fixtures.stC3w Fixtures.ct1 1000 (by norm_num)]
  norm_num [Fixtures.stC3w, Fixtures.stEmpty, Fixtures.ct1, Fixtures.aliceSixty,
    Fixtures.bobForty, DB.contributorsOf, List.filter]
  decide

end GitSplits

namespace GitSplits

/-- C6 counterexample: shares summing to exactly 100.001 pass the
`Math.abs(total - 100) > 0.001` check (the difference equals the tolerance,
it does not exceed it), so the create succeeds — the claim says any sum of
100.001 or more fails and persists nothing. -/
theorem C6_counterexample_boundary_sum_accepted :
    (DB.createSplitsContract Fixtures.stEmpty Fixtures.paramsBoundary).2.isOk = true ∧
    Fixtures.paramsBoundary.contributors.foldl (fun sum c => sum + c.percentage) 0
      = 100001/1000 := by
  have hvalid : DB.validSplitsContract Fixtures.paramsBoundary = true := by
    have h1 : Str.isHexAddress Fixtures.hexA = true := by decide
    have h2 : Str.isHexAddress Fixtures.hexB = true := by decide
    have h3 : Str.isUuid Fixtures.uuid1 = true := by decide
    norm_num [DB.validSplitsContract, DB.validContributor, Fixtures.paramsBoundary,
      h1, h2, h3, List.all]
    exact ⟨by decide, by decide⟩
  have habs : |Fixtures.paramsBoundary.contributors.foldl
      (fun sum c => sum + c.percentage) 0 - 100| = 1/1000 := by
    have hval : Fixtures.paramsBoundary.contributors.foldl
        (fun sum c => sum + c.percentage) 0 - 100 = 1/1000 := by
      norm_num [Fixtures.paramsBoundary]
    rw [hval, abs_of_pos (by norm_num)]
  refine ⟨?_, by norm_num [Fixtures.paramsBoundary]⟩
  simp [DB.createSplitsContract, hvalid, habs, Except.isOk, Except.toBool]

/-- C6 (amended): a contributor-share sum differing from 100 by strictly more
than the 0.001 tolerance makes `createSplitsContract` fail and leave the
store unchanged (a sum of exactly 100.001 is at the tolerance and is
accepted; any larger deviation is rejected). -/
theorem C6_invalid_share_sum_rejected (st : DB.DbState) (p : DB.SplitsContractParams)
    (h : |p.contributors.foldl (fun sum c => sum + c.percentage) 0 - 100| > 1/1000) :
    (DB.createSplitsContract st p).2.isOk = false ∧
    (DB.createSplitsContract st p).1 = st := by
  unfold DB.createSplitsContract
  cases hv : DB.validSplitsContract p with
  | false => simp [hv, Except.isOk, Except.toBool]
  | true =>
    have h' : ((1000:ℚ))⁻¹ < |p.contributors.foldl (fun sum c => sum + c.percentage) 0 - 100| := by
      simpa [one_div] using h
    simp [hv, h', Except.isOk, Except.toBool]

/-- C6 witness: shares 50 and 50.002 (sum 100.002) are rejected and nothing
is persisted. -/
theorem C6_witness :
    (|Fixtures.paramsOver.contributors.foldl (fun sum c => sum + c.percentage) 0
        - 100| > 1/1000) ∧
    (DB.createSplitsContract Fixtures.stEmpty Fixtures.paramsOver).2.isOk = false ∧
    (DB.createSplitsContract Fixtures.stEmpty Fixtures.paramsOver).1 =
      Fixtures.stEmpty := by
  have h : |Fixtures.paramsOver.contributors.foldl (fun sum c => sum + c.percentage) 0
      - 100| > 1/1000 := by
    norm_num [Fixtures.paramsOver]
    rw [abs_of_pos (by norm_num)]
    norm_num
  exact ⟨h, C6_invalid_share_sum_rejected Fixtures.stEmpty Fixtures.paramsOver h⟩

end GitSplits

namespace GitSplits

/-- C5 counterexample: three commits by three distinct authors give three
shares of round(100/3) = 33 each, summing to 99, not 100 (the repository has
attributable commits, total is 3). -/
theorem C5_counterexample_rounded_shares_sum_99 :
    GitHub.totalCommits
      (GitHub.collectContributors Fixtures.noDateOrder [] Fixtures.commitsC5) = 3 ∧
    ((GitHub.analyzeContributors Fixtures.noDateOrder [] Fixtures.commitsC5).map
        (fun c => c.percentage)).sum = 99 := by
  have h33 : round (((3 : ℚ))⁻¹ * 100) = 33 := by
    have hx : ((3 : ℚ))⁻¹ * 100 = 100 / 3 := by norm_num
    rw [hx, round_eq, Int.floor_eq_iff]; norm_num
  refine ⟨by decide, ?_⟩
  have htot : GitHub.totalCommits
      (GitHub.collectContributors Fixtures.noDateOrder [] Fixtures.commitsC5) = 3 := by
    decide
  unfold GitHub.analyzeContributors GitHub.contributorsList
  rw [htot]
  have hsort : ∀ c ∈ GitHub.stableSort GitHub.commitsDescLe
      (GitHub.collectContributors Fixtures.noDateOrder [] Fixtures.commitsC5),
      c.commits = 1 := by decide
  have hlen : (GitHub.stableSort GitHub.commitsDescLe
      (GitHub.collectContributors Fixtures.noDateOrder [] Fixtures.commitsC5)).length
      = 3 := by decide
  generalize hgen : GitHub.stableSort GitHub.commitsDescLe
      (GitHub.collectContributors Fixtures.noDateOrder [] Fixtures.commitsC5) = l at hsort hlen
  match l, hlen with
  | [a, b, c], _ =>
    have ha := hsort a (by simp)
    have hb := hsort b (by simp)
    have hc := hsort c (by simp)
    simp [ha, hb, hc, h33]

end GitSplits

namespace GitSplits

theorem foldl_add_commits (acc : List GitHub.ContributorStat) (n : Nat) :
    acc.foldl (fun sum c => sum + c.commits) n
      = n + (acc.map (fun c => c.commits)).sum := by
  induction acc generalizing n with
  | nil => simp
  | cons a t ih => simp [ih, Nat.add_assoc]

theorem totalCommits_eq_sum (acc : List GitHub.ContributorStat) :
    GitHub.totalCommits acc = (acc.map (fun c => c.commits)).sum := by
  unfold GitHub.totalCommits
  simpa using foldl_add_commits acc 0

theorem sortInsert_perm {α : Type} (le : α → α → Bool) (a : α) (l : List α) :
    (GitHub.sortInsert le a l).Perm (a :: l) := by
  induction l with
  | nil => exact List.Perm.refl _
  | cons b t ih =>
    unfold GitHub.sortInsert
    cases hle : le a b with
    | true => simp
    | false =>
      exact ((ih.cons b).trans (List.Perm.swap a b t))

theorem stableSort_perm {α : Type} (le : α → α → Bool) (l : List α) :
    (GitHub.stableSort le l).Perm l := by
  induction l with
  | nil => exact List.Perm.refl _
  | cons a t ih => exact (sortInsert_perm le a _).trans (ih.cons a)

/-- Rounding each entry moves a list sum by at most half the length. -/
theorem round_sum_bound (l : List ℚ) :
    |(l.map (fun x => ((round x : ℤ) : ℚ))).sum - l.sum| ≤ (l.length : ℚ) / 2 := by
  induction l with
  | nil => simp
  | cons x t ih =>
    simp only [List.map_cons, List.sum_cons, List.length_cons]
    have h1 : |((round x : ℤ) : ℚ) - x| ≤ 1/2 := by
      rw [abs_sub_comm]
      exact abs_sub_round x
    have h2 : ((round x : ℤ) : ℚ) + (t.map (fun x => ((round x : ℤ) : ℚ))).sum
        - (x + t.sum)
        = (((round x : ℤ) : ℚ) - x)
          + ((t.map (fun x => ((round x : ℤ) : ℚ))).sum - t.sum) := by ring
    rw [h2]
    calc |(((round x : ℤ) : ℚ) - x)
          + ((t.map (fun x => ((round x : ℤ) : ℚ))).sum - t.sum)|
        ≤ |((round x : ℤ) : ℚ) - x|
          + |(t.map (fun x => ((round x : ℤ) : ℚ))).sum - t.sum| := abs_add _ _
      _ ≤ 1/2 + (t.length : ℚ) / 2 := add_le_add h1 ih
      _ = ((t.length : ℚ) + 1) / 2 := by ring
      _ = (((t.length + 1 : ℕ)) : ℚ) / 2 := by push_cast; ring

/-- C5 (amended): for a repository with at least one attributable commit, the
exact (unrounded) shares `commits/total*100` sum to exactly 100, and the
integer percentages output by `analyzeRepository` — each independently
`Math.round`ed, with no remainder redistribution — sum to 100 only up to a
rounding error of at most half a percent per contributor (they can sum to 99,
as the counterexample shows). -/
theorem C5_share_sum_within_rounding (dateAfter : String → String → Bool)
    (up fk : List GitHub.CommitRec)
    (h : GitHub.totalCommits (GitHub.collectContributors dateAfter up fk) ≠ 0) :
    ((GitHub.collectContributors dateAfter up fk).map (fun c =>
        (c.commits : ℚ)
          / (GitHub.totalCommits (GitHub.collectContributors dateAfter up fk) : ℚ)
          * 100)).sum = 100 ∧
    |((GitHub.analyzeContributors dateAfter up fk).map
        (fun c => (c.percentage : ℚ))).sum - 100|
      ≤ ((GitHub.analyzeContributors dateAfter up fk).length : ℚ) / 2 := by
  have hTQ : ((GitHub.totalCommits (GitHub.collectContributors dateAfter up fk)) : ℚ)
      ≠ 0 := by exact_mod_cast h
  have hshare : ((GitHub.collectContributors dateAfter up fk).map (fun c =>
      (c.commits : ℚ)
        / (GitHub.totalCommits (GitHub.collectContributors dateAfter up fk) : ℚ)
        * 100)).sum = 100 := by
    have h1 : ∀ c : GitHub.ContributorStat,
        (c.commits : ℚ)
          / (GitHub.totalCommits (GitHub.collectContributors dateAfter up fk) : ℚ) * 100
        = (c.commits : ℚ)
          * (100 / (GitHub.totalCommits (GitHub.collectContributors dateAfter up fk) : ℚ)) :=
      fun c => by ring
    simp only [h1]
    rw [List.sum_map_mul_right]
    have h2 : ((GitHub.collectContributors dateAfter up fk).map
        (fun c => (c.commits : ℚ))).sum
        = ((GitHub.totalCommits (GitHub.collectContributors dateAfter up fk)) : ℚ) := by
      rw [totalCommits_eq_sum]
      rw [show (GitHub.collectContributors dateAfter up fk).map (fun c => (c.commits : ℚ))
          = ((GitHub.collectContributors dateAfter up fk).map
              (fun c => c.commits)).map (fun n : ℕ => (n : ℚ)) by rw [List.map_map]; rfl]
      exact (Nat.cast_list_sum _).symm
    rw [h2]
    field_simp
  refine ⟨hshare, ?_⟩
  have hmap : (GitHub.analyzeContributors dateAfter up fk).map (fun c => (c.percentage : ℚ))
      = ((GitHub.stableSort GitHub.commitsDescLe
          (GitHub.collectContributors dateAfter up fk)).map (fun c =>
            (c.commits : ℚ)
              / (GitHub.totalCommits (GitHub.collectContributors dateAfter up fk) : ℚ)
              * 100)).map (fun x => ((round x : ℤ) : ℚ)) := by
    unfold GitHub.analyzeContributors GitHub.contributorsList
    rw [List.map_map, List.map_map]
    rfl
  have hlen : (GitHub.analyzeContributors dateAfter up fk).length
      = (GitHub.stableSort GitHub.commitsDescLe
          (GitHub.collectContributors dateAfter up fk)).length := by
    unfold GitHub.analyzeContributors GitHub.contributorsList
    rw [List.length_map]
  have hperm := (stableSort_perm GitHub.commitsDescLe
    (GitHub.collectContributors dateAfter up fk)).map (fun c =>
      (c.commits : ℚ)
        / (GitHub.totalCommits (GitHub.collectContributors dateAfter up fk) : ℚ) * 100)
  have hsum2 : ((GitHub.stableSort GitHub.commitsDescLe
      (GitHub.collectContributors dateAfter up fk)).map (fun c =>
        (c.commits : ℚ)
          / (GitHub.totalCommits (GitHub.collectContributors dateAfter up fk) : ℚ)
          * 100)).sum = 100 := by
    rw [hperm.sum_eq]
    exact hshare
  have hb := round_sum_bound ((GitHub.stableSort GitHub.commitsDescLe
      (GitHub.collectContributors dateAfter up fk)).map (fun c =>
        (c.commits : ℚ)
          / (GitHub.totalCommits (GitHub.collectContributors dateAfter up fk) : ℚ)
          * 100))
  rw [hsum2, List.length_map] at hb
  rw [hmap, hlen]
  exact hb

/-- C5 witness: five commits, three by a and two by b — total 5, exact shares
60 and 40, sum 100, rounded percentages within the bound. -/
theorem C5_witness :
    GitHub.totalCommits
      (GitHub.collectContributors Fixtures.noDateOrder [] Fixtures.commitsC5w) ≠ 0 ∧
    ((GitHub.collectContributors Fixtures.noDateOrder [] Fixtures.commitsC5w).map
        (fun c => (c.commits : ℚ)
          / (GitHub.totalCommits
              (GitHub.collectContributors Fixtures.noDateOrder [] Fixtures.commitsC5w) : ℚ)
          * 100)).sum = 100 ∧
    |((GitHub.analyzeContributors Fixtures.noDateOrder [] Fixtures.commitsC5w).map
        (fun c => (c.percentage : ℚ))).sum - 100|
      ≤ ((GitHub.analyzeContributors Fixtures.noDateOrder [] Fixtures.commitsC5w).length : ℚ)
          / 2 := by
  have h := C5_share_sum_within_rounding Fixtures.noDateOrder [] Fixtures.commitsC5w
    (by decide)
  exact ⟨by decide, h.1, h.2⟩

end GitSplits

namespace GitSplits

/-- C9 counterexample: two authors with one commit each, first seen "b" then
"a".  The output order is ["b", "a"] (stable sort keeps first-appearance
order), not the key-ascending ["a", "b"] the claim asserts for ties. -/
theorem C9_counterexample_ties_not_key_ascending :
    ((GitHub.analyzeContributors Fixtures.noDateOrder [] Fixtures.commitsC9).map
        (fun c => (c.stat.commits, c.stat.key))) = [(1, "b"), (1, "a")] ∧
    ¬ (([((1:ℕ), "b"), (1, "a")]).Pairwise
        (fun x y => x.1 > y.1 ∨ (x.1 = y.1 ∧ x.2 ≤ y.2))) := by
  constructor
  · decide
  · intro hp
    have h := List.rel_of_pairwise_cons hp (List.mem_singleton.mpr rfl)
    rcases h with h | h
    · omega
    · have h2 := h.2
      rw [String.le_iff_toList_le] at h2
      revert h2
      decide

theorem sortInsert_sorted {α : Type} (le : α → α → Bool)
    (htrans : ∀ a b c, le a b = true → le b c = true → le a c = true)
    (htot : ∀ a b, le a b = true ∨ le b a = true) (a : α) (l : List α)
    (hl : l.Pairwise (fun x y => le x y = true)) :
    (GitHub.sortInsert le a l).Pairwise (fun x y => le x y = true) := by
  induction l with
  | nil => simp [GitHub.sortInsert]
  | cons b t ih =>
    rw [List.pairwise_cons] at hl
    unfold GitHub.sortInsert
    cases hle : le a b with
    | true =>
      rw [if_pos rfl, List.pairwise_cons]
      refine ⟨?_, List.pairwise_cons.mpr hl⟩
      intro x hx
      rcases List.mem_cons.mp hx with rfl | hxt
      · exact hle
      · exact htrans a b x hle (hl.1 x hxt)
    | false =>
      rw [if_neg (by simp), List.pairwise_cons]
      refine ⟨?_, ih hl.2⟩
      intro x hx
      have hx2 := (sortInsert_perm le a t).mem_iff.mp hx
      rcases List.mem_cons.mp hx2 with hxa | hxt
      · rw [hxa]
        rcases htot a b with h1 | h1
        · rw [h1] at hle; cases hle
        · exact h1
      · exact hl.1 x hxt

theorem stableSort_sorted {α : Type} (le : α → α → Bool)
    (htrans : ∀ a b c, le a b = true → le b c = true → le a c = true)
    (htot : ∀ a b, le a b = true ∨ le b a = true) (l : List α) :
    (GitHub.stableSort le l).Pairwise (fun x y => le x y = true) := by
  induction l with
  | nil => exact List.Pairwise.nil
  | cons a t ih => exact sortInsert_sorted le htrans htot a _ ih

theorem filter_sortInsert_pos {α : Type} (p : α → Bool) (le : α → α → Bool)
    (a : α) (l : List α) (hpa : p a = true)
    (hall : ∀ b, p b = true → le a b = true) :
    (GitHub.sortInsert le a l).filter p = a :: l.filter p := by
  induction l with
  | nil => simp [GitHub.sortInsert, hpa]
  | cons b t ih =>
    unfold GitHub.sortInsert
    cases hle : le a b with
    | true => simp [List.filter_cons, hpa]
    | false =>
      have hpb : p b = false := by
        cases hpb : p b with
        | true => rw [hall b hpb] at hle; cases hle
        | false => rfl
      simp [List.filter_cons, hpb, ih]

theorem filter_sortInsert_neg {α : Type} (p : α → Bool) (le : α → α → Bool)
    (a : α) (l : List α) (hpa : p a = false) :
    (GitHub.sortInsert le a l).filter p = l.filter p := by
  induction l with
  | nil => simp [GitHub.sortInsert, hpa]
  | cons b t ih =>
    unfold GitHub.sortInsert
    cases hle : le a b with
    | true => simp [List.filter_cons, hpa]
    | false => simp [List.filter_cons, ih]

/-- A stable sort leaves the relative order of mutually tied elements
unchanged: filtering by any class of mutually tied elements returns them in
input order. -/
theorem stableSort_filter {α : Type} (p : α → Bool) (le : α → α → Bool)
    (hp : ∀ x y, p x = true → p y = true → le x y = true) (l : List α) :
    (GitHub.stableSort le l).filter p = l.filter p := by
  induction l with
  | nil => rfl
  | cons a t ih =>
    unfold GitHub.stableSort
    cases hpa : p a with
    | true =>
      have hpa2 : p a = true := hpa
      rw [filter_sortInsert_pos p le a _ hpa (fun b hb => hp a b hpa hb), ih,
        List.filter_cons_of_pos hpa2]
    | false =>
      have hpa2 : ¬ p a = true := by simp [hpa]
      rw [filter_sortInsert_neg p le a _ hpa, ih,
        List.filter_cons_of_neg hpa2]

/-- C9 (amended): `analyzeRepository` returns contributors sorted by
descending commit count; the order is a permutation of the accumulator, and
ties between equal commit counts keep their first-appearance (insertion)
order — the stable-sort guarantee of `Array.prototype.sort` — rather than
being re-ordered by attribution key; the output is still deterministic for a
given input commit sequence. -/
theorem C9_analyze_sorted_desc_stable (dateAfter : String → String → Bool)
    (up fk : List GitHub.CommitRec) :
    ((GitHub.analyzeContributors dateAfter up fk).Pairwise
      (fun x y => y.stat.commits ≤ x.stat.commits)) ∧
    (((GitHub.analyzeContributors dateAfter up fk).map (fun c => c.stat)).Perm
      (GitHub.collectContributors dateAfter up fk)) ∧
    (∀ k : ℕ, ((GitHub.analyzeContributors dateAfter up fk).map
        (fun c => c.stat)).filter (fun s => s.commits == k)
      = (GitHub.collectContributors dateAfter up fk).filter
          (fun s => s.commits == k)) := by
  have hmap : (GitHub.analyzeContributors dateAfter up fk).map (fun c => c.stat)
      = GitHub.stableSort GitHub.commitsDescLe
          (GitHub.collectContributors dateAfter up fk) := by
    unfold GitHub.analyzeContributors GitHub.contributorsList
    rw [List.map_map]
    exact List.map_id _
  refine ⟨?_, ?_, ?_⟩
  · unfold GitHub.analyzeContributors GitHub.contributorsList
    rw [List.pairwise_map]
    have hs := stableSort_sorted GitHub.commitsDescLe
      (by intro a b c h1 h2
          simp only [GitHub.commitsDescLe, decide_eq_true_eq] at h1 h2 ⊢
          omega)
      (by intro a b
          simp only [GitHub.commitsDescLe, decide_eq_true_eq]
          omega)
      (GitHub.collectContributors dateAfter up fk)
    exact hs.imp (by
      intro x y h
      simpa [GitHub.commitsDescLe] using h)
  · rw [hmap]
    exact stableSort_perm _ _
  · intro k
    rw [hmap]
    exact stableSort_filter _ _ (by
      intro x y hx hy
      simp only [beq_iff_eq] at hx hy
      simp [GitHub.commitsDescLe, hx, hy]) _

end GitSplits

namespace GitSplits

theorem find?_append_none {α : Type} (p : α → Bool) (l1 l2 : List α)
    (h : l1.find? p = none) : (l1 ++ l2).find? p = l2.find? p := by
  induction l1 with
  | nil => rfl
  | cons a t ih =>
    cases hp : p a with
    | true => rw [List.find?_cons_of_pos _ hp] at h; cases h
    | false =>
      rw [List.find?_cons_of_neg _ (by simp [hp])] at h
      rw [List.cons_append, List.find?_cons_of_neg _ (by simp [hp])]
      exact ih h

/-- `Map.set` followed by `Map.get` at the same key yields the stored value. -/
theorem storeGet_storeSet (m : Identity.SessionStore) (k : String)
    (v : Identity.VSession) :
    Identity.storeGet (Identity.storeSet m k v) k = some v := by
  unfold Identity.storeSet
  cases hf : (m.find? (fun p => p.1 == k)).isSome with
  | true =>
    rw [if_pos rfl]
    unfold Identity.storeGet
    rw [find?_map_hit (fun p => p.1 == k) _ (fun _ => (k, v)) m
      (by intro a
          cases ha : (a.1 == k) with
          | true => simp [ha]
          | false => simp [ha])
      (by intro a ha; simp [ha])]
    obtain ⟨pr, hpr⟩ := Option.isSome_iff_exists.mp hf
    rw [hpr]
    rfl
  | false =>
    rw [if_neg (by simp)]
    unfold Identity.storeGet
    rw [find?_append_none _ _ _ (Option.not_isSome_iff_eq_none.mp (by simp [hf]))]
    simp

/-- C7: the session literal persisted by `verifyIdentity` omits the wallet
field, so the stored session has no wallet and is not verified; every
subsequent `completeVerification` call on that session fails — whatever the
published gist contains and whatever signature is submitted, either the
content-equality check or the signature check errors (the recovered address
is compared against `undefined`) — and the store is left unchanged, so no
such session ever reaches a verified state. -/
theorem C7_sessions_without_wallet_never_verify
    (isoString : Nat → String) (store : Identity.SessionStore)
    (socialId wallet sessionId nonce : String) (now : Nat)
    (fetchGist : String → Option String) (recover : String → String → Option String)
    (sig : String) (now2 : Nat) :
    (Identity.storeGet (Identity.verifyIdentity isoString store socialId wallet
        sessionId nonce now).1 sessionId).map (fun s => (s.wallet, s.verified))
      = some (none, false) ∧
    (Identity.completeVerification isoString fetchGist recover
        (Identity.verifyIdentity isoString store socialId wallet
          sessionId nonce now).1 sessionId sig now2).2.isOk = false ∧
    (Identity.completeVerification isoString fetchGist recover
        (Identity.verifyIdentity isoString store socialId wallet
          sessionId nonce now).1 sessionId sig now2).1
      = (Identity.verifyIdentity isoString store socialId wallet
          sessionId nonce now).1 := by
  have hget := storeGet_storeSet store sessionId
    { id := sessionId, socialId := socialId, nonce := nonce,
      expiresAt := now + 3600000, verified := false, wallet := none }
  have hst : (Identity.verifyIdentity isoString store socialId wallet
      sessionId nonce now).1 = Identity.storeSet store sessionId
      { id := sessionId, socialId := socialId, nonce := nonce,
        expiresAt := now + 3600000, verified := false, wallet := none } := rfl
  refine ⟨by rw [hst, hget]; rfl, ?_⟩
  rw [hst]
  unfold Identity.completeVerification
  rw [hget]
  simp only []
  split
  · exact ⟨rfl, rfl⟩
  · split
    · exact ⟨rfl, rfl⟩
    · split
      · exact ⟨rfl, rfl⟩
      · exact ⟨rfl, rfl⟩

end GitSplits

namespace GitSplits

/-- C4 counterexample: `completeVerification` never checks the session's
completion state (the stored `verified` flag / PENDING status is not
consulted), so on a session with a stored wallet, matching published content
and a valid signature, a second completion attempt after a successful first
one succeeds as well — both of two attempts succeed, not at most one. -/
theorem C4_counterexample_double_completion :
    (Identity.completeVerification toString Fixtures.fetchC4 Fixtures.recoverC4
        Fixtures.storeC4 "s1" "sig1" 50).2.isOk = true ∧
    (Identity.completeVerification toString Fixtures.fetchC4 Fixtures.recoverC4
        (Identity.completeVerification toString Fixtures.fetchC4 Fixtures.recoverC4
          Fixtures.storeC4 "s1" "sig1" 50).1 "s1" "sig1" 50).2.isOk = true := by
  constructor
  · decide
  · decide

/-- C4 (amended): `completeVerification` succeeds only on a stored, unexpired
session whose published content is byte-equal to the re-derived challenge and
whose signature recovers (up to case) to the stored settlement address; on
any failure it returns a specific error and the session store is unchanged.
There is no PENDING/compare-and-swap check, so completion of an
already-completed session succeeds again (see the counterexample). -/
theorem C4_completeVerification_success_conditions
    (isoString : Nat → String) (fetchGist : String → Option String)
    (recover : String → String → Option String) (store : Identity.SessionStore)
    (sessionId sig : String) (now : Nat) :
    ((Identity.completeVerification isoString fetchGist recover store
        sessionId sig now).2.isOk = false →
      (Identity.completeVerification isoString fetchGist recover store
        sessionId sig now).1 = store) ∧
    (∀ sid w, (Identity.completeVerification isoString fetchGist recover store
        sessionId sig now).2 = .ok sid w →
      ∃ s wlt rec, Identity.storeGet store sessionId = some s ∧
        s.wallet = some wlt ∧ ¬ (s.expiresAt < now) ∧
        fetchGist s.socialId = some (Identity.verificationMessage isoString
          s.wallet s.socialId s.nonce s.expiresAt) ∧
        recover (Identity.verificationMessage isoString s.wallet s.socialId
          s.nonce s.expiresAt) sig = some rec ∧
        Str.jsToLower rec = Str.jsToLower wlt ∧
        sid = s.socialId ∧ w = some wlt ∧
        (Identity.completeVerification isoString fetchGist recover store
          sessionId sig now).1
          = Identity.storeSet store sessionId { s with verified := true }) := by
  cases hg : Identity.storeGet store sessionId with
  | none =>
    have hres : Identity.completeVerification isoString fetchGist recover store
        sessionId sig now = (store, .err "Verification session not found") := by
      simp [Identity.completeVerification, hg]
    rw [hres]
    exact ⟨fun _ => rfl, fun sid w h => by cases h⟩
  | some s =>
    by_cases hexp : s.expiresAt < now
    · have hres : Identity.completeVerification isoString fetchGist recover store
          sessionId sig now = (store, .err "Verification session expired") := by
        simp [Identity.completeVerification, hg, hexp]
      rw [hres]
      exact ⟨fun _ => rfl, fun sid w h => by cases h⟩
    · cases hfg : fetchGist s.socialId with
      | none =>
        have hres : Identity.completeVerification isoString fetchGist recover store
            sessionId sig now
            = (store, .err "Verification gist not found or content mismatch") := by
          simp [Identity.completeVerification, hg, hexp, hfg]
        rw [hres]
        exact ⟨fun _ => rfl, fun sid w h => by cases h⟩
      | some content =>
        cases hc : content == Identity.verificationMessage isoString s.wallet
            s.socialId s.nonce s.expiresAt with
        | false =>
          have hres : Identity.completeVerification isoString fetchGist recover store
              sessionId sig now
              = (store, .err "Verification gist not found or content mismatch") := by
            simp [Identity.completeVerification, hg, hexp, hfg, hc]
          rw [hres]
          exact ⟨fun _ => rfl, fun sid w h => by cases h⟩
        | true =>
          cases hr : recover (Identity.verificationMessage isoString s.wallet
              s.socialId s.nonce s.expiresAt) sig with
          | none =>
            have hres : Identity.completeVerification isoString fetchGist recover store
                sessionId sig now = (store, .err "Invalid signature") := by
              simp [Identity.completeVerification, hg, hexp, hfg, hc, hr]
            rw [hres]
            exact ⟨fun _ => rfl, fun sid w h => by cases h⟩
          | some rec =>
            cases hw : s.wallet with
            | none =>
              rw [hw] at hc hr
              have hres : Identity.completeVerification isoString fetchGist recover
                  store sessionId sig now = (store, .err "Invalid signature") := by
                simp [Identity.completeVerification, hg, hexp, hw, hfg, hc, hr]
              rw [hres]
              exact ⟨fun _ => rfl, fun sid w h => by cases h⟩
            | some wlt =>
              rw [hw] at hc hr
              by_cases hlw : Str.jsToLower rec = Str.jsToLower wlt
              · have hres : Identity.completeVerification isoString fetchGist recover
                    store sessionId sig now
                    = (Identity.storeSet store sessionId { s with verified := true },
                       .ok s.socialId (some wlt)) := by
                  simp [Identity.completeVerification, hg, hexp, hw, hfg, hc, hr, hlw]
                rw [hres]
                refine ⟨fun hfalse => by simp [Identity.CompleteResult.isOk] at hfalse, ?_⟩
                intro sid w h
                cases h
                refine ⟨s, wlt, rec, ?_, ?_, ?_, ?_, ?_, ?_, ?_, ?_, ?_⟩
                · exact rfl
                · exact hw
                · exact hexp
                · rw [hfg, hw]
                  exact congrArg some (beq_iff_eq.mp hc)
                · rw [hw]
                  exact hr
                · exact hlw
                · exact rfl
                · exact rfl
                · exact rfl
              · have hres : Identity.completeVerification isoString fetchGist recover
                    store sessionId sig now = (store, .err "Invalid signature") := by
                  simp [Identity.completeVerification, hg, hexp, hw, hfg, hc, hr, hlw]
                rw [hres]
                exact ⟨fun _ => rfl, fun sid w h => by cases h⟩

end GitSplits

namespace GitSplits

/-- C4 witness: a successful completion run on a session with a stored
wallet, publishing gist and matching signature, instantiating the
success-conditions theorem. -/
theorem C4_witness :
    ∃ s wlt rec, Identity.storeGet Fixtures.storeC4 "s1" = some s ∧
      s.wallet = some wlt ∧ ¬ (s.expiresAt < 50) ∧
      Fixtures.fetchC4 s.socialId = some (Identity.verificationMessage toString
        s.wallet s.socialId s.nonce s.expiresAt) ∧
      Fixtures.recoverC4 (Identity.verificationMessage toString s.wallet s.socialId
        s.nonce s.expiresAt) "sig1" = some rec ∧
      Str.jsToLower rec = Str.jsToLower wlt ∧
      "alice" = s.socialId ∧ (some Fixtures.walletW : Option String) = some wlt ∧
      (Identity.completeVerification toString Fixtures.fetchC4 Fixtures.recoverC4
        Fixtures.storeC4 "s1" "sig1" 50).1
        = Identity.storeSet Fixtures.storeC4 "s1" { s with verified := true } :=
  (C4_completeVerification_success_conditions toString Fixtures.fetchC4
    Fixtures.recoverC4 Fixtures.storeC4 "s1" "sig1" 50).2 "alice"
    (some Fixtures.walletW) (by decide)

end GitSplits

namespace GitSplits

/-- C8: invitation tokens are single-use.  On a PENDING, unexpired invitation
(with an existing target contributor and a well-formed wallet address) the
first Accept succeeds: the contributor gets the lower-cased settlement
address and verification status PENDING, the invitation becomes ACCEPTED —
and any second Accept with the same token fails with "Invitation is no
longer valid" and changes nothing.  On a PENDING invitation whose expiry has
passed, Accept marks it EXPIRED and fails without touching any contributor. -/
theorem C8_acceptInvitation_single_use (st : DB.DbState) (token wallet : String)
    (now : Nat) (inv : DB.InvitationRow)
    (hfind : DB.getContributorInvitation st token = some inv)
    (hp : inv.status = "PENDING") :
    ((¬ inv.expiresAt < now) → ∀ c,
      st.contributors.find? (fun x => x.id == inv.contributorId) = some c →
      Str.isHexAddress wallet = true →
      (Lifecycle.acceptInvitation st token wallet now).2 = .ok inv ∧
      DB.findContributor (Lifecycle.acceptInvitation st token wallet now).1
          inv.contributorId
        = some { c with walletAddress := some (Str.jsToLower wallet),
                        verificationStatus := "PENDING" } ∧
      DB.getContributorInvitation (Lifecycle.acceptInvitation st token wallet now).1
          token = some { inv with status := "ACCEPTED" } ∧
      (∀ w2 now2, Lifecycle.acceptInvitation
          (Lifecycle.acceptInvitation st token wallet now).1 token w2 now2
        = ((Lifecycle.acceptInvitation st token wallet now).1,
           .error "Invitation is no longer valid"))) ∧
    (inv.expiresAt < now →
      Lifecycle.acceptInvitation st token wallet now
        = (DB.updateContributorInvitation st inv.id "EXPIRED",
           .error "Invitation has expired") ∧
      (DB.updateContributorInvitation st inv.id "EXPIRED").contributors
        = st.contributors) := by
  constructor
  · intro hexp c hc hwallet
    have hwpi : DB.walletParamInvalid
        { id := inv.contributorId, walletAddress := some wallet,
          verificationStatus := some "PENDING" } = false := by
      simp [DB.walletParamInvalid, hwallet]
    have happly : DB.applyContributorUpdate
        { id := inv.contributorId, walletAddress := some wallet,
          verificationStatus := some "PENDING" } now c
        = { c with walletAddress := some (Str.jsToLower wallet),
                   verificationStatus := "PENDING" } := by
      simp [DB.applyContributorUpdate]
    have hu : DB.updateContributor st
        { id := inv.contributorId, walletAddress := some wallet,
          verificationStatus := some "PENDING" } now
        = ({ st with contributors := st.contributors.map (fun d =>
              if d.id == inv.contributorId then
                DB.applyContributorUpdate
                  { id := inv.contributorId, walletAddress := some wallet,
                    verificationStatus := some "PENDING" } now d
              else d) },
           .ok (DB.applyContributorUpdate
              { id := inv.contributorId, walletAddress := some wallet,
                verificationStatus := some "PENDING" } now c)) := by
      unfold DB.updateContributor
      rw [if_neg (by simp [hwpi]), hc]
    have hacc : Lifecycle.acceptInvitation st token wallet now
        = (DB.updateContributorInvitation
            { st with contributors := st.contributors.map (fun d =>
                if d.id == inv.contributorId then
                  DB.applyContributorUpdate
                    { id := inv.contributorId, walletAddress := some wallet,
                      verificationStatus := some "PENDING" } now d
                else d) } inv.id "ACCEPTED", .ok inv) := by
      unfold Lifecycle.acceptInvitation
      rw [hfind]
      simp only []
      rw [if_neg (by simp [hp]), if_neg hexp, hu]
    rw [hacc]
    refine ⟨rfl, ?_, ?_, ?_⟩
    · show (DB.updateContributorInvitation _ inv.id "ACCEPTED").contributors.find?
          (fun x => x.id == inv.contributorId) = _
      show (st.contributors.map (fun d =>
          if d.id == inv.contributorId then
            DB.applyContributorUpdate
              { id := inv.contributorId, walletAddress := some wallet,
                verificationStatus := some "PENDING" } now d
          else d)).find? (fun x => x.id == inv.contributorId) = _
      rw [find?_map_hit (fun x => x.id == inv.contributorId) _
        (DB.applyContributorUpdate
          { id := inv.contributorId, walletAddress := some wallet,
            verificationStatus := some "PENDING" } now)
        st.contributors
        (by intro a
            cases ha : (a.id == inv.contributorId) with
            | true => simp [ha, DB.applyContributorUpdate]
            | false => simp [ha])
        (by intro a ha
            have ha2 : (a.id == inv.contributorId) = true := ha
            simp only [ha2, if_true])]
      rw [hc, Option.map_some', happly]
    · show (st.invitations.map (fun i =>
          if i.id == inv.id then { i with status := "ACCEPTED" } else i)).find?
          (fun i => i.token == token) = _
      rw [find?_map_hit (fun i => i.token == token) _
        (fun i => if i.id == inv.id then { i with status := "ACCEPTED" } else i)
        st.invitations
        (by intro a
            cases ha : (a.id == inv.id) with
            | true => simp [ha]
            | false => simp [ha])
        (fun a _ => rfl)]
      have hfind2 : st.invitations.find? (fun i => i.token == token) = some inv := hfind
      rw [hfind2, Option.map_some']
      simp
    · intro w2 now2
      have hfindA : DB.getContributorInvitation
          (DB.updateContributorInvitation
            { st with contributors := st.contributors.map (fun d =>
                if d.id == inv.contributorId then
                  DB.applyContributorUpdate
                    { id := inv.contributorId, walletAddress := some wallet,
                      verificationStatus := some "PENDING" } now d
                else d) } inv.id "ACCEPTED") token
          = some { inv with status := "ACCEPTED" } := by
        show (st.invitations.map (fun i =>
            if i.id == inv.id then { i with status := "ACCEPTED" } else i)).find?
            (fun i => i.token == token) = _
        rw [find?_map_hit (fun i => i.token == token) _
          (fun i => if i.id == inv.id then { i with status := "ACCEPTED" } else i)
          st.invitations
          (by intro a
              cases ha : (a.id == inv.id) with
              | true => simp [ha]
              | false => simp [ha])
          (fun a _ => rfl)]
        have hfind2 : st.invitations.find? (fun i => i.token == token) = some inv := hfind
        rw [hfind2, Option.map_some']
        simp
      unfold Lifecycle.acceptInvitation
      rw [hfindA]
      simp only []
      rw [if_pos (by simp)]
  · intro hexp2
    have hacc : Lifecycle.acceptInvitation st token wallet now
        = (DB.updateContributorInvitation st inv.id "EXPIRED",
           .error "Invitation has expired") := by
      unfold Lifecycle.acceptInvitation
      rw [hfind]
      simp only []
      rw [if_neg (by simp [hp]), if_pos hexp2]
    exact ⟨hacc, rfl⟩

end GitSplits

namespace GitSplits

/-- C8 witness: a concrete accept/re-accept/expired run on the fixture
invitation, instantiating the single-use theorem (the upper-case wallet is
stored lower-cased). -/
theorem C8_witness :
    (Lifecycle.acceptInvitation Fixtures.stC8 "tok1" Fixtures.hexCupper 500).2
      = .ok Fixtures.invRow ∧
    DB.findContributor (Lifecycle.acceptInvitation Fixtures.stC8 "tok1"
        Fixtures.hexCupper 500).1 12
      = some { Fixtures.contribCarol with
               walletAddress := some (Str.jsToLower Fixtures.hexCupper),
               verificationStatus := "PENDING" } ∧
    DB.getContributorInvitation (Lifecycle.acceptInvitation Fixtures.stC8 "tok1"
        Fixtures.hexCupper 500).1 "tok1"
      = some { Fixtures.invRow with status := "ACCEPTED" } ∧
    Lifecycle.acceptInvitation (Lifecycle.acceptInvitation Fixtures.stC8 "tok1"
        Fixtures.hexCupper 500).1 "tok1" Fixtures.hexCupper 500
      = ((Lifecycle.acceptInvitation Fixtures.stC8 "tok1" Fixtures.hexCupper 500).1,
         .error "Invitation is no longer valid") ∧
    Lifecycle.acceptInvitation Fixtures.stC8 "tok1" Fixtures.hexCupper 2000
      = (DB.updateContributorInvitation Fixtures.stC8 11 "EXPIRED",
         .error "Invitation has expired") := by
  have h := C8_acceptInvitation_single_use Fixtures.stC8 "tok1" Fixtures.hexCupper 500
    Fixtures.invRow (by decide) (by decide)
  have hA := h.1 (by decide) Fixtures.contribCarol (by decide) (by decide)
  have h2 := C8_acceptInvitation_single_use Fixtures.stC8 "tok1" Fixtures.hexCupper 2000
    Fixtures.invRow (by decide) (by decide)
  have hB := (h2.2 (by decide)).1
  exact ⟨hA.1, hA.2.1, hA.2.2.1, hA.2.2.2 Fixtures.hexCupper 500, hB⟩

end GitSplits

namespace GitSplits

/-- C10 counterexample: `updateContributor` with an empty-string wallet
bypasses the format check (JS truthiness: `params.walletAddress && ...` is
false for ""), succeeds, and stores "" as the wallet address — which does not
match the canonical `^0x[a-f0-9]{40}$` form the claim asserts for every
stored address. -/
theorem C10_counterexample_empty_wallet_bypasses_validation :
    (DB.updateContributor Fixtures.stC10
        { id := 12, walletAddress := some "", verificationStatus := none } 0).2.isOk
      = true ∧
    ((DB.updateContributor Fixtures.stC10
        { id := 12, walletAddress := some "", verificationStatus := none }
        0).1.contributors.map (fun c => c.walletAddress)) = [some ""] ∧
    Str.isLowerHexAddress "" = false := by
  refine ⟨by decide, by decide, by decide⟩

theorem mem_mkContributorRows (cid : Nat) (r : DB.ContributorRow) :
    ∀ (n : Nat) (l : List DB.ContributorParams), r ∈ DB.mkContributorRows cid n l →
    ∃ c ∈ l, ∃ m, r = DB.mkContributorRow cid m c := by
  intro n l
  induction l generalizing n with
  | nil => intro h; cases h
  | cons a t ih =>
    intro h
    rcases List.mem_cons.mp h with h1 | h2
    · exact ⟨a, List.mem_cons_self a t, n, h1⟩
    · obtain ⟨c, hcl, m, hm⟩ := ih (n + 1) h2
      exact ⟨c, List.mem_cons_of_mem a hcl, m, hm⟩

/-- C10 (amended): every address the store layer writes through a validated
path — Safe address and owner, splits contract address and controller, and
every non-empty contributor wallet — is checked against the
`^0x[a-fA-F0-9]{40}$` rule and lower-cased, so those writes preserve the
"all stored addresses match `^0x[a-f0-9]{40}$`" invariant, and
`getSplitsContract` look-ups are insensitive to hex-digit case.  The single
exception is an empty-string wallet passed to `updateContributor`, which JS
truthiness lets through unvalidated (see the counterexample). -/
theorem C10_store_addresses_lowercased (st : DB.DbState)
    (hwf : DB.WellFormedAddresses st) :
    (∀ p, DB.WellFormedAddresses (DB.createSafeAccount st p).1) ∧
    (∀ p, DB.WellFormedAddresses (DB.createSplitsContract st p).1) ∧
    (∀ p now, p.walletAddress ≠ some "" →
      DB.WellFormedAddresses (DB.updateContributor st p now).1) ∧
    (∀ a b, Str.isHexAddress a = true → Str.isHexAddress b = true →
      Str.jsToLower a = Str.jsToLower b →
      DB.getSplitsContract st a = DB.getSplitsContract st b) := by
  obtain ⟨hwf1, hwf2, hwf3⟩ := hwf
  refine ⟨?_, ?_, ?_, ?_⟩
  · intro p
    unfold DB.createSafeAccount
    cases hv : DB.validSafeAccount p with
    | false => simpa using ⟨hwf1, hwf2, hwf3⟩
    | true =>
      simp only [DB.validSafeAccount, Bool.and_eq_true] at hv
      rw [if_pos rfl]
      refine ⟨?_, hwf2, hwf3⟩
      intro s hs
      rcases List.mem_append.mp hs with h1 | h1
      · exact hwf1 s h1
      · rcases List.mem_singleton.mp h1 with rfl
        exact ⟨Str.toLower_hexAddress _ hv.1.1, Str.toLower_hexAddress _ hv.2⟩
  · intro p
    unfold DB.createSplitsContract
    cases hv : DB.validSplitsContract p with
    | false => simpa using ⟨hwf1, hwf2, hwf3⟩
    | true =>
      rw [if_neg (by simp)]
      simp only [DB.validSplitsContract, Bool.and_eq_true] at hv
      dsimp only
      split
      · exact ⟨hwf1, hwf2, hwf3⟩
      · refine ⟨hwf1, ?_, ?_⟩
        · intro ct hct
          rcases List.mem_append.mp hct with h1 | h1
          · exact hwf2 ct h1
          · rcases List.mem_singleton.mp h1 with rfl
            exact ⟨Str.toLower_hexAddress _ hv.1.1.1.1,
              Str.toLower_hexAddress _ hv.1.2⟩
        · intro c hc w hw
          rcases List.mem_append.mp hc with h1 | h1
          · exact hwf3 c h1 w hw
          · obtain ⟨cp, hcp, m, rfl⟩ := mem_mkContributorRows _ _ _ _ h1
            have hvc : DB.validContributor cp = true :=
              List.all_eq_true.mp hv.2 cp hcp
            simp only [DB.validContributor, Bool.and_eq_true] at hvc
            simp only [DB.mkContributorRow, Option.map_eq_some'] at hw
            obtain ⟨w0, hw0, rfl⟩ := hw
            have hhex : Str.isHexAddress w0 = true := by
              have h2 := hvc.1.1.2
              rw [hw0] at h2
              exact h2
            exact Str.toLower_hexAddress _ hhex
  · intro p now hne
    unfold DB.updateContributor
    cases hwpi : DB.walletParamInvalid p with
    | true => simpa using ⟨hwf1, hwf2, hwf3⟩
    | false =>
      rw [if_neg (by simp)]
      cases hfc : st.contributors.find? (fun c => c.id == p.id) with
      | none => exact ⟨hwf1, hwf2, hwf3⟩
      | some c =>
        refine ⟨hwf1, hwf2, ?_⟩
        intro d hd w hw
        rcases List.mem_map.mp hd with ⟨d0, hd0, rfl⟩
        by_cases hid : (d0.id == p.id) = true
        · rw [if_pos hid] at hw
          simp only [DB.applyContributorUpdate] at hw
          cases hpw : p.walletAddress with
          | none =>
            rw [hpw] at hw
            exact hwf3 d0 hd0 w hw
          | some w0 =>
            rw [hpw] at hw
            have hw0ne : w0 ≠ "" := by
              intro he
              exact hne (by rw [hpw, he])
            have hhex : Str.isHexAddress w0 = true := by
              have h2 : DB.walletParamInvalid p = false := hwpi
              unfold DB.walletParamInvalid at h2
              rw [hpw] at h2
              simp only [Bool.and_eq_false_iff, decide_eq_false_iff_not,
                not_not, Bool.not_eq_false] at h2
              rcases h2 with h2 | h2
              · exact absurd h2 hw0ne
              · exact h2
            cases hw
            exact Str.toLower_hexAddress _ hhex
        · rw [if_neg hid] at hw
          exact hwf3 d0 hd0 w hw
  · intro a b ha hb hab
    unfold DB.getSplitsContract
    rw [if_neg (by simp [ha]), if_neg (by simp [hb]), hab]

end GitSplits

namespace GitSplits

/-- C10 witness: starting from the empty (trivially well-formed) store, a
Safe create with an upper-case address, a splits create, a contributor
wallet update with an upper-case non-empty wallet all preserve the
lower-case-hex invariant, and reads by address ignore hex-digit case. -/
theorem C10_witness :
    DB.WellFormedAddresses Fixtures.stEmpty ∧
    DB.WellFormedAddresses (DB.createSafeAccount Fixtures.stEmpty
      { address := Fixtures.hexCupper, chainId := 1,
        ownerAddress := Fixtures.hexB }).1 ∧
    DB.WellFormedAddresses (DB.createSplitsContract Fixtures.stEmpty
      Fixtures.paramsOver).1 ∧
    DB.WellFormedAddresses (DB.updateContributor Fixtures.stEmpty
      { id := 0, walletAddress := some Fixtures.hexCupper,
        verificationStatus := none } 0).1 ∧
    DB.getSplitsContract Fixtures.stEmpty Fixtures.hexC
      = DB.getSplitsContract Fixtures.stEmpty Fixtures.hexCupper := by
  have hwf : DB.WellFormedAddresses Fixtures.stEmpty := by
    refine ⟨?_, ?_, ?_⟩ <;> intro x hx <;> cases hx
  have h := C10_store_addresses_lowercased Fixtures.stEmpty hwf
  exact ⟨hwf, h.1 _, h.2.1 _, h.2.2.1 _ 0 (by decide),
    h.2.2.2 _ _ (by decide) (by decide) (by decide)⟩

end GitSplits

namespace GitSplits
open DB Lifecycle

theorem findDist_updateClaim (st : DbState) (j : Nat) (stat : String)
    (tx : Option String) (i : Nat) :
    findDist (updateClaim st j stat tx) i = findDist st i := rfl

theorem findClaim_updateDistribution (st : DbState) (j : Nat) (stat : String)
    (tx : Option String) (i : Nat) :
    findClaim (updateDistribution st j stat tx) i = findClaim st i := rfl

theorem findDist_updateDistribution_ne (st : DbState) (j : Nat) (stat : String)
    (tx : Option String) (i : Nat) (h : j ≠ i) :
    findDist (updateDistribution st j stat tx) i = findDist st i := by
  unfold findDist updateDistribution
  refine find?_map_congr _ _ _ ?hone ?htwo
  case hone =>
    intro a
    by_cases ha : (a.id == j) = true
    · rw [if_pos ha]
    · rw [if_neg ha]
  case htwo =>
    intro a ha
    have hai : a.id = i := by simpa using ha
    rw [if_neg (by simp only [hai, beq_iff_eq]; exact fun he => h he.symm)]

theorem findDist_updateDistribution_eq_none (st : DbState) (i : Nat) (stat : String) :
    findDist (updateDistribution st i stat none) i
      = (findDist st i).map (fun d => { d with status := stat }) := by
  unfold findDist updateDistribution
  refine find?_map_hit _ _ _ _ ?hone ?htwo
  case hone =>
    intro a
    by_cases ha : (a.id == i) = true
    · rw [if_pos ha]
    · rw [if_neg ha]
  case htwo =>
    intro a ha
    rw [if_pos ha]

theorem findDist_updateDistribution_eq_some (st : DbState) (i : Nat) (stat : String)
    (t : String) :
    findDist (updateDistribution st i stat (some t)) i
      = (findDist st i).map (fun d => { d with status := stat, txHash := some t }) := by
  unfold findDist updateDistribution
  refine find?_map_hit _ _ _ _ ?hone ?htwo
  case hone =>
    intro a
    by_cases ha : (a.id == i) = true
    · rw [if_pos ha]
    · rw [if_neg ha]
  case htwo =>
    intro a ha
    rw [if_pos ha]

theorem findClaim_updateClaim_ne (st : DbState) (j : Nat) (stat : String)
    (tx : Option String) (i : Nat) (h : j ≠ i) :
    findClaim (updateClaim st j stat tx) i = findClaim st i := by
  unfold findClaim updateClaim
  refine find?_map_congr _ _ _ ?hone ?htwo
  case hone =>
    intro a
    by_cases ha : (a.id == j) = true
    · rw [if_pos ha]
    · rw [if_neg ha]
  case htwo =>
    intro a ha
    have hai : a.id = i := by simpa using ha
    rw [if_neg (by simp only [hai, beq_iff_eq]; exact fun he => h he.symm)]

theorem findClaim_updateClaim_eq_some (st : DbState) (i : Nat) (stat : String)
    (t : String) :
    findClaim (updateClaim st i stat (some t)) i
      = (findClaim st i).map (fun c => { c with status := stat, txHash := some t }) := by
  unfold findClaim updateClaim
  refine find?_map_hit _ _ _ _ ?hone ?htwo
  case hone =>
    intro a
    by_cases ha : (a.id == i) = true
    · rw [if_pos ha]
    · rw [if_neg ha]
  case htwo =>
    intro a ha
    rw [if_pos ha]

theorem distributions_foldClaims (cl : List ClaimRow) (tx : String) (s : DbState) :
    (cl.foldl (fun s2 c => updateClaim s2 c.id "COMPLETED" (some tx)) s).distributions
      = s.distributions := by
  induction cl generalizing s with
  | nil => rfl
  | cons c t ih =>
    rw [List.foldl_cons]
    exact (ih _).trans rfl

theorem findDist_foldClaims (cl : List ClaimRow) (tx : String) (s : DbState) (i : Nat) :
    findDist (cl.foldl (fun s2 c => updateClaim s2 c.id "COMPLETED" (some tx)) s) i
      = findDist s i := by
  unfold findDist
  rw [distributions_foldClaims]

theorem findClaim_foldClaims_ne (cl : List ClaimRow) (tx : String) (i : Nat)
    (h : ∀ c ∈ cl, c.id ≠ i) : ∀ s : DbState,
    findClaim (cl.foldl (fun s2 c => updateClaim s2 c.id "COMPLETED" (some tx)) s) i
      = findClaim s i := by
  induction cl with
  | nil => intro s; rfl
  | cons c t ih =>
    intro s
    rw [List.foldl_cons, ih (fun c2 h2 => h c2 (List.mem_cons_of_mem c h2)),
      findClaim_updateClaim_ne _ _ _ _ _ (h c (List.mem_cons_self c t))]

theorem findClaim_foldClaims_hit (cl : List ClaimRow) (tx : String)
    (hn : (cl.map (fun c => c.id)).Nodup) (c : ClaimRow) (hc : c ∈ cl) :
    ∀ s : DbState, findClaim s c.id = some c →
    findClaim (cl.foldl (fun s2 c2 => updateClaim s2 c2.id "COMPLETED" (some tx)) s) c.id
      = some { c with status := "COMPLETED", txHash := some tx } := by
  induction cl with
  | nil => cases hc
  | cons c0 t ih =>
    intro s hs
    rw [List.map_cons, List.nodup_cons] at hn
    rcases List.mem_cons.mp hc with rfl | hct
    · rw [List.foldl_cons,
        findClaim_foldClaims_ne t tx c.id
          (fun c2 h2 he => hn.1 (he ▸ List.mem_map_of_mem (fun x => x.id) h2)),
        findClaim_updateClaim_eq_some, hs, Option.map_some']
    · have hne : c0.id ≠ c.id := fun he =>
        hn.1 (he ▸ List.mem_map_of_mem (fun x => x.id) hct)
      rw [List.foldl_cons]
      exact ih hn.2 hct _
        (by rw [findClaim_updateClaim_ne _ _ _ _ _ hne]; exact hs)

theorem findDist_processOne_ne (settle : List Recipient → ℚ → Except String String)
    (s : DbState) (dd : DistributionRow)
    (j : Option (ContractRow × List ContributorRow)) (cl : List ClaimRow)
    (i : Nat) (h : dd.id ≠ i) :
    findDist (processOne settle s dd j cl) i = findDist s i := by
  unfold Lifecycle.processOne
  cases j with
  | none => exact findDist_updateDistribution_ne _ _ _ _ _ h
  | some ct =>
    dsimp only
    cases hst : settle (buildRecipients ct.2) dd.amount with
    | error e => exact findDist_updateDistribution_ne _ _ _ _ _ h
    | ok tx =>
      rw [findDist_foldClaims]
      exact findDist_updateDistribution_ne _ _ _ _ _ h

theorem findClaim_processOne_ne (settle : List Recipient → ℚ → Except String String)
    (s : DbState) (dd : DistributionRow)
    (j : Option (ContractRow × List ContributorRow)) (cl : List ClaimRow)
    (i : Nat) (h : ∀ c ∈ cl, c.id ≠ i) :
    findClaim (processOne settle s dd j cl) i = findClaim s i := by
  unfold Lifecycle.processOne
  cases j with
  | none => exact findClaim_updateDistribution _ _ _ _ _
  | some ct =>
    dsimp only
    cases hst : settle (buildRecipients ct.2) dd.amount with
    | error e => exact findClaim_updateDistribution _ _ _ _ _
    | ok tx =>
      rw [findClaim_foldClaims_ne cl tx i h, findClaim_updateDistribution]

theorem findDist_foldItems_ne (settle : List Recipient → ℚ → Except String String)
    (items : List (DistributionRow × Option (ContractRow × List ContributorRow)
      × List ClaimRow)) (i : Nat) (h : ∀ it ∈ items, it.1.id ≠ i) :
    ∀ s : DbState,
    findDist (items.foldl (fun s it => processOne settle s it.1 it.2.1 it.2.2) s) i
      = findDist s i := by
  induction items with
  | nil => intro s; rfl
  | cons it t ih =>
    intro s
    rw [List.foldl_cons, ih (fun x hx => h x (List.mem_cons_of_mem it hx)),
      findDist_processOne_ne settle s it.1 it.2.1 it.2.2 i (h it (List.mem_cons_self it t))]

theorem findClaim_foldItems_ne (settle : List Recipient → ℚ → Except String String)
    (items : List (DistributionRow × Option (ContractRow × List ContributorRow)
      × List ClaimRow)) (i : Nat) (h : ∀ it ∈ items, ∀ c ∈ it.2.2, c.id ≠ i) :
    ∀ s : DbState,
    findClaim (items.foldl (fun s it => processOne settle s it.1 it.2.1 it.2.2) s) i
      = findClaim s i := by
  induction items with
  | nil => intro s; rfl
  | cons it t ih =>
    intro s
    rw [List.foldl_cons, ih (fun x hx => h x (List.mem_cons_of_mem it hx)),
      findClaim_processOne_ne settle s it.1 it.2.1 it.2.2 i (h it (List.mem_cons_self it t))]

end GitSplits

namespace GitSplits
open DB Lifecycle

/-- C2: `processPendingDistributions` processes every PENDING distribution in
isolation.  For any PENDING distribution `d` of the snapshot (row ids being
unique): if its settlement call throws, `d` ends FAILED and every one of its
claims is left exactly as it was (a PENDING claim stays PENDING — nothing is
marked FAILED or COMPLETED); if its settlement call succeeds with reference
`tx`, `d` ends COMPLETED with `tx` and every one of its claims ends COMPLETED
with the same `tx`.  This holds for each pending distribution independently
of the outcomes of the others (the loop continues on error). -/
theorem C2_processPendingDistributions_isolated
    (settle : List Lifecycle.Recipient → ℚ → Except String String) (st : DB.DbState)
    (hD : (st.distributions.map (fun d => d.id)).Nodup)
    (hC : (st.claims.map (fun c => c.id)).Nodup)
    (d : DB.DistributionRow) (hmem : d ∈ st.distributions)
    (hp : d.status = "PENDING") :
    (∀ e, Lifecycle.settleOutcome settle
        ((st.contracts.find? (fun ct => ct.id == d.splitsContractId)).map
          (fun ct => (ct, DB.contributorsOf st ct.id))) d = .error e →
      DB.findDist (Lifecycle.processPendingDistributions settle st) d.id
        = some { d with status := "FAILED" } ∧
      ∀ c ∈ DB.claimsOf st d.id,
        DB.findClaim (Lifecycle.processPendingDistributions settle st) c.id
          = some c) ∧
    (∀ tx, Lifecycle.settleOutcome settle
        ((st.contracts.find? (fun ct => ct.id == d.splitsContractId)).map
          (fun ct => (ct, DB.contributorsOf st ct.id))) d = .ok tx →
      DB.findDist (Lifecycle.processPendingDistributions settle st) d.id
        = some { d with status := "COMPLETED", txHash := some tx } ∧
      ∀ c ∈ DB.claimsOf st d.id,
        DB.findClaim (Lifecycle.processPendingDistributions settle st) c.id
          = some { c with status := "COMPLETED", txHash := some tx }) := by
  have hdP : d ∈ st.distributions.filter (fun dd => dd.status == "PENDING") :=
    List.mem_filter.mpr ⟨hmem, by simp [hp]⟩
  obtain ⟨p1, p2, hsplit⟩ := List.append_of_mem hdP
  have hPn : ((st.distributions.filter (fun dd => dd.status == "PENDING")).map
      (fun dd => dd.id)).Nodup :=
    List.Nodup.sublist (List.Sublist.map _ (List.filter_sublist _)) hD
  rw [hsplit, List.map_append, List.map_cons] at hPn
  have hnd := List.nodup_append.mp hPn
  have hne1 : ∀ d' ∈ p1, d'.id ≠ d.id := by
    intro d' hd' he
    have hm : d'.id ∈ p1.map (fun x => x.id) := List.mem_map_of_mem _ hd'
    refine hnd.2.2 hm ?_
    rw [he]
    exact List.mem_cons_self _ _
  have hne2 : ∀ d' ∈ p2, d'.id ≠ d.id := by
    intro d' hd' he
    have hm : d'.id ∈ p2.map (fun x => x.id) := List.mem_map_of_mem _ hd'
    rw [he] at hm
    exact (List.nodup_cons.mp hnd.2.1).1 hm
  have hclaims_ne : ∀ d' : DB.DistributionRow, d'.id ≠ d.id →
      ∀ c' ∈ DB.claimsOf st d'.id, ∀ c ∈ DB.claimsOf st d.id, c'.id ≠ c.id := by
    intro d' hdne c' hc' c hc he
    unfold DB.claimsOf at hc' hc
    have h1 := List.mem_filter.mp hc'
    have h2 := List.mem_filter.mp hc
    have hcc : c' = c := List.inj_on_of_nodup_map hC h1.1 h2.1 he
    rw [hcc] at h1
    have e1 : c.distributionId = d'.id := by simpa using h1.2
    have e2 : c.distributionId = d.id := by simpa using h2.2
    exact hdne (by rw [← e1, e2])
  have hrun : Lifecycle.processPendingDistributions settle st
      = ((p2.map (fun dd =>
            (dd, (st.contracts.find? (fun ct => ct.id == dd.splitsContractId)).map
                  (fun ct => (ct, DB.contributorsOf st ct.id)),
             DB.claimsOf st dd.id))).foldl
          (fun s it => Lifecycle.processOne settle s it.1 it.2.1 it.2.2)
          (Lifecycle.processOne settle
            ((p1.map (fun dd =>
              (dd, (st.contracts.find? (fun ct => ct.id == dd.splitsContractId)).map
                    (fun ct => (ct, DB.contributorsOf st ct.id)),
               DB.claimsOf st dd.id))).foldl
              (fun s it => Lifecycle.processOne settle s it.1 it.2.1 it.2.2) st)
            d
            ((st.contracts.find? (fun ct => ct.id == d.splitsContractId)).map
              (fun ct => (ct, DB.contributorsOf st ct.id)))
            (DB.claimsOf st d.id))) := by
    unfold Lifecycle.processPendingDistributions DB.getPendingDistributions
    rw [hsplit, List.map_append, List.map_cons, List.foldl_append, List.foldl_cons]
  have hcond1d : ∀ it ∈ (p1.map (fun dd =>
      (dd, (st.contracts.find? (fun ct => ct.id == dd.splitsContractId)).map
            (fun ct => (ct, DB.contributorsOf st ct.id)),
       DB.claimsOf st dd.id))), it.1.id ≠ d.id := by
    intro it hit
    obtain ⟨d', hd', rfl⟩ := List.mem_map.mp hit
    exact hne1 d' hd'
  have hcond2d : ∀ it ∈ (p2.map (fun dd =>
      (dd, (st.contracts.find? (fun ct => ct.id == dd.splitsContractId)).map
            (fun ct => (ct, DB.contributorsOf st ct.id)),
       DB.claimsOf st dd.id))), it.1.id ≠ d.id := by
    intro it hit
    obtain ⟨d', hd', rfl⟩ := List.mem_map.mp hit
    exact hne2 d' hd'
  have hA_d : DB.findDist ((p1.map (fun dd =>
      (dd, (st.contracts.find? (fun ct => ct.id == dd.splitsContractId)).map
            (fun ct => (ct, DB.contributorsOf st ct.id)),
       DB.claimsOf st dd.id))).foldl
      (fun s it => Lifecycle.processOne settle s it.1 it.2.1 it.2.2) st) d.id
      = some d := by
    rw [findDist_foldItems_ne settle _ d.id hcond1d st]
    exact find?_eq_of_mem_nodup (fun x => x.id) st.distributions hD d hmem
  have hcond1c : ∀ c ∈ DB.claimsOf st d.id, ∀ it ∈ (p1.map (fun dd =>
      (dd, (st.contracts.find? (fun ct => ct.id == dd.splitsContractId)).map
            (fun ct => (ct, DB.contributorsOf st ct.id)),
       DB.claimsOf st dd.id))), ∀ c' ∈ it.2.2, c'.id ≠ c.id := by
    intro c hc it hit c' hc'
    obtain ⟨d', hd', rfl⟩ := List.mem_map.mp hit
    exact hclaims_ne d' (hne1 d' hd') c' hc' c hc
  have hcond2c : ∀ c ∈ DB.claimsOf st d.id, ∀ it ∈ (p2.map (fun dd =>
      (dd, (st.contracts.find? (fun ct => ct.id == dd.splitsContractId)).map
            (fun ct => (ct, DB.contributorsOf st ct.id)),
       DB.claimsOf st dd.id))), ∀ c' ∈ it.2.2, c'.id ≠ c.id := by
    intro c hc it hit c' hc'
    obtain ⟨d', hd', rfl⟩ := List.mem_map.mp hit
    exact hclaims_ne d' (hne2 d' hd') c' hc' c hc
  have hA_c : ∀ c ∈ DB.claimsOf st d.id,
      DB.findClaim ((p1.map (fun dd =>
        (dd, (st.contracts.find? (fun ct => ct.id == dd.splitsContractId)).map
              (fun ct => (ct, DB.contributorsOf st ct.id)),
         DB.claimsOf st dd.id))).foldl
        (fun s it => Lifecycle.processOne settle s it.1 it.2.1 it.2.2) st) c.id
        = some c := by
    intro c hc
    rw [findClaim_foldItems_ne settle _ c.id (hcond1c c hc) st]
    have hcm : c ∈ st.claims := (List.mem_filter.mp hc).1
    exact find?_eq_of_mem_nodup (fun x => x.id) st.claims hC c hcm
  have hclNodup : ((DB.claimsOf st d.id).map (fun c => c.id)).Nodup :=
    List.Nodup.sublist (List.Sublist.map _ (List.filter_sublist _)) hC
  constructor
  · intro e hout
    have hstep : Lifecycle.processOne settle ((p1.map (fun dd =>
        (dd, (st.contracts.find? (fun ct => ct.id == dd.splitsContractId)).map
              (fun ct => (ct, DB.contributorsOf st ct.id)),
         DB.claimsOf st dd.id))).foldl
        (fun s it => Lifecycle.processOne settle s it.1 it.2.1 it.2.2) st) d
        ((st.contracts.find? (fun ct => ct.id == d.splitsContractId)).map
          (fun ct => (ct, DB.contributorsOf st ct.id)))
        (DB.claimsOf st d.id)
        = DB.updateDistribution ((p1.map (fun dd =>
            (dd, (st.contracts.find? (fun ct => ct.id == dd.splitsContractId)).map
                  (fun ct => (ct, DB.contributorsOf st ct.id)),
             DB.claimsOf st dd.id))).foldl
            (fun s it => Lifecycle.processOne settle s it.1 it.2.1 it.2.2) st)
            d.id "FAILED" none := by
      unfold Lifecycle.processOne
      unfold Lifecycle.settleOutcome at hout
      cases hj : (st.contracts.find? (fun ct => ct.id == d.splitsContractId)).map
          (fun ct => (ct, DB.contributorsOf st ct.id)) with
      | none => rfl
      | some ct =>
        rw [hj] at hout
        dsimp only
        dsimp only at hout
        cases hst2 : settle (Lifecycle.buildRecipients ct.2) d.amount with
        | error e2 => rfl
        | ok tx => rw [hst2] at hout; cases hout
    constructor
    · rw [hrun, findDist_foldItems_ne settle _ d.id hcond2d, hstep,
        findDist_updateDistribution_eq_none, hA_d, Option.map_some']
    · intro c hc
      rw [hrun, findClaim_foldItems_ne settle _ c.id (hcond2c c hc), hstep,
        findClaim_updateDistribution]
      exact hA_c c hc
  · intro tx hout
    obtain ⟨ct, hj⟩ : ∃ ct, (st.contracts.find? (fun x => x.id == d.splitsContractId)).map
        (fun x => (x, DB.contributorsOf st x.id)) = some ct := by
      unfold Lifecycle.settleOutcome at hout
      cases hj : (st.contracts.find? (fun x => x.id == d.splitsContractId)).map
          (fun x => (x, DB.contributorsOf st x.id)) with
      | none => rw [hj] at hout; cases hout
      | some ct => exact ⟨ct, rfl⟩
    have hsettle : settle (Lifecycle.buildRecipients ct.2) d.amount = .ok tx := by
      unfold Lifecycle.settleOutcome at hout
      rw [hj] at hout
      exact hout
    have hstep : Lifecycle.processOne settle ((p1.map (fun dd =>
        (dd, (st.contracts.find? (fun x => x.id == dd.splitsContractId)).map
              (fun x => (x, DB.contributorsOf st x.id)),
         DB.claimsOf st dd.id))).foldl
        (fun s it => Lifecycle.processOne settle s it.1 it.2.1 it.2.2) st) d
        ((st.contracts.find? (fun x => x.id == d.splitsContractId)).map
          (fun x => (x, DB.contributorsOf st x.id)))
        (DB.claimsOf st d.id)
        = (DB.claimsOf st d.id).foldl
            (fun s2 c => DB.updateClaim s2 c.id "COMPLETED" (some tx))
            (DB.updateDistribution ((p1.map (fun dd =>
              (dd, (st.contracts.find? (fun x => x.id == dd.splitsContractId)).map
                    (fun x => (x, DB.contributorsOf st x.id)),
               DB.claimsOf st dd.id))).foldl
              (fun s it => Lifecycle.processOne settle s it.1 it.2.1 it.2.2) st)
              d.id "COMPLETED" (some tx)) := by
      unfold Lifecycle.processOne
      rw [hj]
      dsimp only
      rw [hsettle]
    constructor
    · rw [hrun, findDist_foldItems_ne settle _ d.id hcond2d, hstep,
        findDist_foldClaims, findDist_updateDistribution_eq_some, hA_d,
        Option.map_some']
    · intro c hc
      rw [hrun, findClaim_foldItems_ne settle _ c.id (hcond2c c hc), hstep]
      exact findClaim_foldClaims_hit (DB.claimsOf st d.id) tx hclNodup c hc _
        (by rw [findClaim_updateDistribution]; exact hA_c c hc)

end GitSplits

namespace GitSplits

/-- Witness for C2: on the two-distribution store `stC2`, the 100-unit
distribution (id 7) fails settlement and ends FAILED with its claim (id 9)
left exactly PENDING as before, while the 200-unit distribution (id 8) ends
COMPLETED with reference "0xsettled" propagated to its claim (id 10). -/
theorem C2_witness :
    DB.findDist (Lifecycle.processPendingDistributions Fixtures.settleC2 Fixtures.stC2)
      Fixtures.distD1.id = some { Fixtures.distD1 with status := "FAILED" } ∧
    DB.findClaim (Lifecycle.processPendingDistributions Fixtures.settleC2 Fixtures.stC2)
      Fixtures.claimD1.id = some Fixtures.claimD1 ∧
    DB.findDist (Lifecycle.processPendingDistributions Fixtures.settleC2 Fixtures.stC2)
      Fixtures.distD2.id
      = some { Fixtures.distD2 with status := "COMPLETED", txHash := some "0xsettled" } ∧
    DB.findClaim (Lifecycle.processPendingDistributions Fixtures.settleC2 Fixtures.stC2)
      Fixtures.claimD2.id
      = some { Fixtures.claimD2 with status := "COMPLETED", txHash := some "0xsettled" } := by
  have h1 := (C2_processPendingDistributions_isolated Fixtures.settleC2 Fixtures.stC2
    (by decide) (by decide) Fixtures.distD1 (by decide) rfl).1 "rpc failure" rfl
  have h2 := (C2_processPendingDistributions_isolated Fixtures.settleC2 Fixtures.stC2
    (by decide) (by decide) Fixtures.distD2 (by decide) rfl).2 "0xsettled" rfl
  exact ⟨h1.1, h1.2 Fixtures.claimD1 (by decide), h2.1, h2.2 Fixtures.claimD2 (by decide)⟩

end GitSplits
